import Mathlib

/-!
mq_monotonic: timed message-queue operations against a monotonic deadline.

A shallow embedding of `include/mq_monotonic.hpp`:

* `is_timetout_valid`, the deadline validator;
* `calculate_delta_time_ms`, the remaining-time computation, with the 64-bit
  two's-complement arithmetic of `long` / `long long` made explicit;
* `mq_timedreceive_monotonic` and `mq_timedsend_monotonic`, the two
  probe / clock / poll loops, over an explicit world state and an explicit
  `errno`.
-/

namespace mq_monotonic

/-! ## Machine integers -/

/-- Reduction of a mathematical integer to a 64-bit two's-complement value
(`long`, `long long`, `time_t`, `ssize_t` on LP64 Linux). -/
def wrap64 (x : Int) : Int :=
  (x + 9223372036854775808) % 18446744073709551616 - 9223372036854775808

/-- Reduction of a mathematical integer to a 32-bit two's-complement value (`int`). -/
def wrap32 (x : Int) : Int :=
  (x + 2147483648) % 4294967296 - 2147483648

/-- The constant `INT_MAX` of `<climits>`. -/
def INT_MAX : Int := 2147483647

/-- The constant `LLONG_MAX` of `<climits>`. -/
def LLONG_MAX : Int := 9223372036854775807

/-- The constant `LLONG_MIN` of `<climits>`. -/
def LLONG_MIN : Int := -9223372036854775808

/-! ## Time conversion constants -/

/-- Source: `constexpr long NANOS_PER_SEC = 1000000000L;` -/
def NANOS_PER_SEC : Int := 1000000000

/-- Source: `constexpr long long MILLIS_PER_SEC = 1000LL;` -/
def MILLIS_PER_SEC : Int := 1000

/-- Source: `constexpr long long NANOS_PER_MILLI = 1000000LL;` -/
def NANOS_PER_MILLI : Int := 1000000

/-! ## timespec -/

/-- The POSIX `struct timespec`: `time_t tv_sec; long tv_nsec;`. -/
structure timespec where
  tv_sec : Int
  tv_nsec : Int
deriving DecidableEq

/-- Both fields fit their machine type (64-bit signed). -/
def timespec.representable (ts : timespec) : Prop :=
  LLONG_MIN ≤ ts.tv_sec ∧ ts.tv_sec ≤ LLONG_MAX ∧
  LLONG_MIN ≤ ts.tv_nsec ∧ ts.tv_nsec ≤ LLONG_MAX

instance (ts : timespec) : Decidable ts.representable := by
  unfold timespec.representable; infer_instance

/-- Lexicographic order on (seconds, nanoseconds): `a` is not later than `b`. -/
def timespec.le (a b : timespec) : Prop :=
  a.tv_sec < b.tv_sec ∨ (a.tv_sec = b.tv_sec ∧ a.tv_nsec ≤ b.tv_nsec)

instance (a b : timespec) : Decidable (timespec.le a b) := by
  unfold timespec.le; infer_instance

/-- The exact signed distance from `now` to `deadline`, in nanoseconds. -/
def true_delta_ns (deadline now : timespec) : Int :=
  (deadline.tv_sec - now.tv_sec) * 1000000000 + (deadline.tv_nsec - now.tv_nsec)

/-! ## The deadline validator -/

/-- Source: `is_timetout_valid(const timespec* abs_timeout)`; a null pointer is `none`. -/
def is_timetout_valid (abs_timeout : Option timespec) : Bool :=
  match abs_timeout with
  | none => false
  | some ts =>
    if ts.tv_sec < 0 then false
    else if ts.tv_nsec < 0 ∨ ts.tv_nsec ≥ NANOS_PER_SEC then false
    else true

/-! ## The delta calculator -/

/-- Source: `calculate_delta_time_ms(abs_timeout, time_current)`.
Every `long` / `long long` operation is reduced with `wrap64`; `/` on machine
integers truncates toward zero (`Int.tdiv`); the final `static_cast<int>` is `wrap32`. -/
def calculate_delta_time_ms (abs_timeout time_current : timespec) : Int :=
  let sec := wrap64 (abs_timeout.tv_sec - time_current.tv_sec)
  let nsec := wrap64 (abs_timeout.tv_nsec - time_current.tv_nsec)
  let sec1 := if nsec < 0 then wrap64 (sec - 1) else sec
  let nsec1 := if nsec < 0 then wrap64 (nsec + NANOS_PER_SEC) else nsec
  if sec1 < 0 then 0
  else
    let ms := wrap64 (wrap64 (sec1 * MILLIS_PER_SEC) + Int.tdiv nsec1 NANOS_PER_MILLI)
    let ms1 := if ms < 0 then 0 else if ms > INT_MAX then INT_MAX else ms
    wrap32 ms1

/-! ## System interface

The constants below are the Linux values of the macros that the header takes
from `<cerrno>`, `<poll.h>` and `<ctime>`. -/

/-- Linux `EINTR`. -/
def EINTR : Int := 4

/-- Linux `EBADF`. -/
def EBADF : Int := 9

/-- Linux `EAGAIN`. -/
def EAGAIN : Int := 11

/-- Linux `EINVAL`. -/
def EINVAL : Int := 22

/-- Linux `EMSGSIZE`. -/
def EMSGSIZE : Int := 90

/-- Linux `ETIMEDOUT`. -/
def ETIMEDOUT : Int := 110

/-- Linux `POLLIN`. -/
def POLLIN : Int := 1

/-- Linux `POLLOUT`. -/
def POLLOUT : Int := 4

/-- Linux `CLOCK_MONOTONIC`. -/
def CLOCK_MONOTONIC : Int := 1

/-- Linux `MQ_PRIO_MAX`. -/
def MQ_PRIO_MAX : Nat := 32768

/-- The `struct pollfd` of `<poll.h>`. -/
structure pollfd where
  fd : Int
  events : Int
  revents : Int
deriving DecidableEq

/-- What a queue primitive leaves behind: its return value, the value of
`errno` after the call, and the world after the call. -/
structure SysRet (σ : Type) where
  ret : Int
  errno : Int
  world : σ

/-- What `clock_gettime` leaves behind; `time` is the content of the
`timespec` it was given, after the call. -/
structure ClockRet (σ : Type) where
  ret : Int
  time : timespec
  errno : Int
  world : σ

/-- What `poll` leaves behind; `revents` is the field it wrote into the
single `pollfd` (the other two fields are inputs only). -/
structure PollRet (σ : Type) where
  ret : Int
  revents : Int
  errno : Int
  world : σ

/-- The primitives the two drivers call, over a world of type `σ`.
Each takes the world and the current `errno` last.

* `mq_timedreceive mqdes msg_len msg_prio abs_timeout`: the receive buffer
  lives in the world; `msg_prio` tells whether the priority pointer is non-null;
* `mq_timedsend mqdes msg_ptr msg_len msg_prio abs_timeout`: `msg_ptr` is the
  content of the caller's message buffer;
* `clock_gettime clk`;
* `poll fds timeout` with one `pollfd` (`nfds = 1`). -/
structure Sys (σ : Type) where
  mq_timedreceive : Int → Nat → Bool → timespec → σ → Int → SysRet σ
  mq_timedsend : Int → List Char → Nat → Nat → timespec → σ → Int → SysRet σ
  clock_gettime : Int → σ → Int → ClockRet σ
  poll : pollfd → Int → σ → Int → PollRet σ

/-- Source: `timespec zero_timeout = {0, 0};` -/
def zero_timeout : timespec := ⟨0, 0⟩

/-- How far a bounded execution got: it returned `ret` with `errno` set, or
the bound on loop bodies was reached first. The world is kept in both cases. -/
inductive Run (σ : Type) where
  | returned (ret : Int) (errno : Int) (world : σ)
  | out_of_fuel (errno : Int) (world : σ)
deriving DecidableEq

/-- The world at the end of a bounded execution. -/
def Run.world {σ : Type} : Run σ → σ
  | .returned _ _ w => w
  | .out_of_fuel _ w => w

/-! ## The wait-and-retry drivers

`fuel` bounds the number of loop bodies executed (`while (true)` and the
inner `do ... while`). -/

/-- Source: `do { rc = poll(fdset, 1, delta_ms); } while (rc < 0 && errno == EINTR);` -/
def poll_retry {σ : Type} (S : Sys σ) : Nat → pollfd → Int → σ → Int → Run σ
  | 0, _, _, w, errno => .out_of_fuel errno w
  | fuel + 1, fdset, delta_ms, w, errno =>
    let p := S.poll fdset delta_ms w errno
    if p.ret < 0 ∧ p.errno = EINTR then
      poll_retry S fuel { fdset with revents := p.revents } delta_ms p.world p.errno
    else
      .returned p.ret p.errno p.world

/-- Source: the `while (true)` loop of `mq_timedreceive_monotonic`. The
`errno` on entry is overwritten by `errno = 0`. `mqd_t` is `int` on Linux. -/
def mq_timedreceive_loop {σ : Type} (S : Sys σ) (mqdes : Int) (msg_len : Nat)
    (msg_prio : Bool) (abs_timeout : timespec) : Nat → σ → Int → Run σ
  | 0, w, errno => .out_of_fuel errno w
  | fuel + 1, w, _ =>
    let r := S.mq_timedreceive mqdes msg_len msg_prio zero_timeout w 0
    if r.ret ≥ 0 then .returned r.ret r.errno r.world
    else if r.errno ≠ ETIMEDOUT ∧ r.errno ≠ EAGAIN then .returned (-1) r.errno r.world
    else
      let c := S.clock_gettime CLOCK_MONOTONIC r.world r.errno
      if c.ret ≠ 0 then .returned (-1) c.errno c.world
      else
        let delta_ms := calculate_delta_time_ms abs_timeout c.time
        if 0 = delta_ms then .returned (-1) ETIMEDOUT c.world
        else
          match poll_retry S fuel ⟨wrap32 mqdes, POLLIN, 0⟩ delta_ms c.world c.errno with
          | .out_of_fuel e w3 => .out_of_fuel e w3
          | .returned rc e w3 =>
            if rc < 0 then .returned (-1) e w3
            else if rc = 0 then .returned (-1) ETIMEDOUT w3
            else mq_timedreceive_loop S mqdes msg_len msg_prio abs_timeout fuel w3 e

/-- Source: `mq_timedreceive_monotonic(mqdes, msg_ptr, msg_len, msg_prio, abs_timeout)`.
A null `abs_timeout` is `none`; it is rejected by the validator before it is
dereferenced. -/
def mq_timedreceive_monotonic {σ : Type} (S : Sys σ) (fuel : Nat) (mqdes : Int)
    (msg_len : Nat) (msg_prio : Bool) (abs_timeout : Option timespec)
    (w : σ) (errno : Int) : Run σ :=
  if !is_timetout_valid abs_timeout then .returned (-1) EINVAL w
  else
    match abs_timeout with
    | none => .returned (-1) EINVAL w
    | some ts => mq_timedreceive_loop S mqdes msg_len msg_prio ts fuel w errno

/-- Source: the `while (true)` loop of `mq_timedsend_monotonic`; the function
returns `int`, so the `ssize_t` value `ret` is narrowed on success. -/
def mq_timedsend_loop {σ : Type} (S : Sys σ) (mqdes : Int) (msg_ptr : List Char)
    (msg_len : Nat) (msg_prio : Nat) (abs_timeout : timespec) : Nat → σ → Int → Run σ
  | 0, w, errno => .out_of_fuel errno w
  | fuel + 1, w, _ =>
    let r := S.mq_timedsend mqdes msg_ptr msg_len msg_prio zero_timeout w 0
    if r.ret ≥ 0 then .returned (wrap32 r.ret) r.errno r.world
    else if r.errno ≠ ETIMEDOUT ∧ r.errno ≠ EAGAIN then .returned (-1) r.errno r.world
    else
      let c := S.clock_gettime CLOCK_MONOTONIC r.world r.errno
      if c.ret ≠ 0 then .returned (-1) c.errno c.world
      else
        let delta_ms := calculate_delta_time_ms abs_timeout c.time
        if 0 = delta_ms then .returned (-1) ETIMEDOUT c.world
        else
          match poll_retry S fuel ⟨wrap32 mqdes, POLLOUT, 0⟩ delta_ms c.world c.errno with
          | .out_of_fuel e w3 => .out_of_fuel e w3
          | .returned rc e w3 =>
            if rc < 0 then .returned (-1) e w3
            else if rc = 0 then .returned (-1) ETIMEDOUT w3
            else mq_timedsend_loop S mqdes msg_ptr msg_len msg_prio abs_timeout fuel w3 e

/-- Source: `mq_timedsend_monotonic(mqdes, msg_ptr, msg_len, msg_prio, abs_timeout)`. -/
def mq_timedsend_monotonic {σ : Type} (S : Sys σ) (fuel : Nat) (mqdes : Int)
    (msg_ptr : List Char) (msg_len : Nat) (msg_prio : Nat)
    (abs_timeout : Option timespec) (w : σ) (errno : Int) : Run σ :=
  if !is_timetout_valid abs_timeout then .returned (-1) EINVAL w
  else
    match abs_timeout with
    | none => .returned (-1) EINVAL w
    | some ts => mq_timedsend_loop S mqdes msg_ptr msg_len msg_prio ts fuel w errno

/-! ## Either operation

Statements about "either timed operation" quantify over `Op`. -/

/-- Which of the two timed operations. -/
inductive Op where
  | receive
  | send
deriving DecidableEq

/-- The arguments of the two operations other than the deadline; each
operation reads the fields it has. -/
structure Args where
  mqdes : Int
  msg_ptr : List Char
  msg_len : Nat
  prio_ptr : Bool
  msg_prio : Nat

/-- The timed operation `op`: one of the two functions of the header. -/
def timed_op {σ : Type} (S : Sys σ) (op : Op) (fuel : Nat) (a : Args)
    (abs_timeout : Option timespec) (w : σ) (errno : Int) : Run σ :=
  match op with
  | .receive =>
    mq_timedreceive_monotonic S fuel a.mqdes a.msg_len a.prio_ptr abs_timeout w errno
  | .send =>
    mq_timedsend_monotonic S fuel a.mqdes a.msg_ptr a.msg_len a.msg_prio abs_timeout w errno

/-- The `while (true)` loop of the timed operation `op`. -/
def timed_loop {σ : Type} (S : Sys σ) (op : Op) (a : Args) (abs_timeout : timespec)
    (fuel : Nat) (w : σ) (errno : Int) : Run σ :=
  match op with
  | .receive => mq_timedreceive_loop S a.mqdes a.msg_len a.prio_ptr abs_timeout fuel w errno
  | .send => mq_timedsend_loop S a.mqdes a.msg_ptr a.msg_len a.msg_prio abs_timeout fuel w errno

/-- The non-blocking probe of `op`: the queue primitive it calls, with the zero timeout. -/
def probe {σ : Type} (S : Sys σ) (op : Op) (a : Args) (w : σ) (errno : Int) : SysRet σ :=
  match op with
  | .receive => S.mq_timedreceive a.mqdes a.msg_len a.prio_ptr zero_timeout w errno
  | .send => S.mq_timedsend a.mqdes a.msg_ptr a.msg_len a.msg_prio zero_timeout w errno

/-- The readiness direction `op` watches. -/
def Op.events : Op → Int
  | .receive => POLLIN
  | .send => POLLOUT

/-- The conversion of the probe's return value to the return type of `op`
(`ssize_t` for receive, `int` for send). -/
def Op.narrow : Op → Int → Int
  | .receive => fun r => r
  | .send => wrap32

/-! ## Observing the primitive calls -/

/-- One primitive call with its arguments and what it reported. -/
inductive Call where
  | mq_timedreceive (mqdes : Int) (msg_len : Nat) (abs_timeout : timespec)
      (ret : Int) (errno : Int)
  | mq_timedsend (mqdes : Int) (msg_len : Nat) (msg_prio : Nat) (abs_timeout : timespec)
      (ret : Int) (errno : Int)
  | clock_gettime (clk : Int) (ret : Int) (time : timespec) (errno : Int)
  | poll (fds : pollfd) (timeout : Int) (ret : Int) (errno : Int)
deriving DecidableEq

/-- The system `S` with a log: every primitive behaves as in `S` and appends
the call it served to the log carried next to the world. -/
def traced {σ : Type} (S : Sys σ) : Sys (σ × List Call) where
  mq_timedreceive := fun mqdes msg_len msg_prio t w e =>
    let r := S.mq_timedreceive mqdes msg_len msg_prio t w.1 e
    ⟨r.ret, r.errno, (r.world, w.2 ++ [Call.mq_timedreceive mqdes msg_len t r.ret r.errno])⟩
  mq_timedsend := fun mqdes msg_ptr msg_len msg_prio t w e =>
    let r := S.mq_timedsend mqdes msg_ptr msg_len msg_prio t w.1 e
    ⟨r.ret, r.errno,
      (r.world, w.2 ++ [Call.mq_timedsend mqdes msg_len msg_prio t r.ret r.errno])⟩
  clock_gettime := fun clk w e =>
    let c := S.clock_gettime clk w.1 e
    ⟨c.ret, c.time, c.errno, (c.world, w.2 ++ [Call.clock_gettime clk c.ret c.time c.errno])⟩
  poll := fun fds timeout w e =>
    let p := S.poll fds timeout w.1 e
    ⟨p.ret, p.revents, p.errno, (p.world, w.2 ++ [Call.poll fds timeout p.ret p.errno])⟩

/-- The log entry of the probe of `op` that reported `ret` and `errno`. -/
def probe_call (op : Op) (a : Args) (ret errno : Int) : Call :=
  match op with
  | .receive => Call.mq_timedreceive a.mqdes a.msg_len zero_timeout ret errno
  | .send => Call.mq_timedsend a.mqdes a.msg_len a.msg_prio zero_timeout ret errno

/-- The `errno` a logged call left behind. -/
def Call.errno_after : Call → Int
  | .mq_timedreceive _ _ _ _ e => e
  | .mq_timedsend _ _ _ _ _ e => e
  | .clock_gettime _ _ _ e => e
  | .poll _ _ _ e => e

/-- A logged call is a hard failure: a queue probe that failed with a cause
other than `ETIMEDOUT` / `EAGAIN`, a clock read that failed, or a readiness
wait that failed with a cause other than `EINTR`. -/
def Call.hard_failure : Call → Prop
  | .mq_timedreceive _ _ _ ret e => ret < 0 ∧ e ≠ ETIMEDOUT ∧ e ≠ EAGAIN
  | .mq_timedsend _ _ _ _ ret e => ret < 0 ∧ e ≠ ETIMEDOUT ∧ e ≠ EAGAIN
  | .clock_gettime _ ret _ _ => ret ≠ 0
  | .poll _ _ ret e => ret < 0 ∧ e ≠ EINTR

instance (c : Call) : Decidable c.hard_failure := by
  cases c <;> unfold Call.hard_failure <;> infer_instance

/-- The value a logged call returned. -/
def Call.ret : Call → Int
  | .mq_timedreceive _ _ _ r _ => r
  | .mq_timedsend _ _ _ _ r _ => r
  | .clock_gettime _ r _ _ => r
  | .poll _ _ r _ => r

/-- The log of a bounded execution over a traced system. -/
def Run.log {σ : Type} (r : Run (σ × List Call)) : List Call := r.world.2

/-! ## The shape shared by the two loops -/

/-- The loop of either driver with the probe, the conversion of its return
value and the readiness direction taken as parameters. `timed_loop_eq_driver_loop`
shows that both loops of the header are instances. -/
def driver_loop {σ : Type} (S : Sys σ) (prb : σ → Int → SysRet σ) (narrow : Int → Int)
    (events : Int) (mqdes : Int) (abs_timeout : timespec) : Nat → σ → Int → Run σ
  | 0, w, errno => .out_of_fuel errno w
  | fuel + 1, w, _ =>
    let r := prb w 0
    if r.ret ≥ 0 then .returned (narrow r.ret) r.errno r.world
    else if r.errno ≠ ETIMEDOUT ∧ r.errno ≠ EAGAIN then .returned (-1) r.errno r.world
    else
      let c := S.clock_gettime CLOCK_MONOTONIC r.world r.errno
      if c.ret ≠ 0 then .returned (-1) c.errno c.world
      else
        let delta_ms := calculate_delta_time_ms abs_timeout c.time
        if 0 = delta_ms then .returned (-1) ETIMEDOUT c.world
        else
          match poll_retry S fuel ⟨wrap32 mqdes, events, 0⟩ delta_ms c.world c.errno with
          | .out_of_fuel e w3 => .out_of_fuel e w3
          | .returned rc e w3 =>
            if rc < 0 then .returned (-1) e w3
            else if rc = 0 then .returned (-1) ETIMEDOUT w3
            else driver_loop S prb narrow events mqdes abs_timeout fuel w3 e

/-! ## The control points of the loop, read off the log -/

/-- Where a timed operation stands between two primitive calls. -/
inductive Ctrl where
  | at_probe
  | at_clock
  | at_poll (delta_ms : Int)
  | done (ret : Int) (errno : Int)
deriving DecidableEq

/-- The operation has returned. -/
def Ctrl.is_done : Ctrl → Bool
  | .done _ _ => true
  | _ => false

/-- The control point after a `poll` that returned `rc` with `errno = e`
while waiting with timeout `d`. -/
def Ctrl.after_poll (d rc e : Int) : Ctrl :=
  if rc < 0 ∧ e = EINTR then .at_poll d
  else if rc < 0 then .done (-1) e
  else if rc = 0 then .done (-1) ETIMEDOUT
  else .at_probe

/-- The control point after a probe that returned `r` with `errno = e`. -/
def Ctrl.after_probe (op : Op) (r e : Int) : Ctrl :=
  if r ≥ 0 then .done (op.narrow r) e
  else if e ≠ ETIMEDOUT ∧ e ≠ EAGAIN then .done (-1) e
  else .at_clock

/-- The control point after a clock read that returned `rc`, the time `t`
and `errno = e`, for the deadline `ts`. -/
def Ctrl.after_clock (ts : timespec) (rc : Int) (t : timespec) (e : Int) : Ctrl :=
  if rc ≠ 0 then .done (-1) e
  else if 0 = calculate_delta_time_ms ts t then .done (-1) ETIMEDOUT
  else .at_poll (calculate_delta_time_ms ts t)

/-- One logged call moves the control point; `none` when the call is not the
one the loop issues at that point. -/
def Ctrl.step (op : Op) (a : Args) (ts : timespec) : Ctrl → Call → Option Ctrl
  | .at_probe, c =>
    if c = probe_call op a c.ret c.errno_after then some (Ctrl.after_probe op c.ret c.errno_after)
    else none
  | .at_clock, .clock_gettime clk rc t e =>
    if clk = CLOCK_MONOTONIC then some (Ctrl.after_clock ts rc t e) else none
  | .at_poll d, .poll fds timeout rc e =>
    if fds.fd = wrap32 a.mqdes ∧ fds.events = op.events ∧ timeout = d then
      some (Ctrl.after_poll d rc e)
    else none
  | _, _ => none

/-- The control point reached from `st` by a log, call after call. -/
def Ctrl.run (op : Op) (a : Args) (ts : timespec) : Ctrl → List Call → Option Ctrl
  | st, [] => some st
  | st, c :: cs =>
    match Ctrl.step op a ts st c with
    | none => none
    | some st1 => Ctrl.run op a ts st1 cs

/-- The value a bounded execution returned, if it returned. -/
def Run.ret? {σ : Type} : Run σ → Option Int
  | .returned r _ _ => some r
  | .out_of_fuel _ _ => none

/-- The value of `errno` at the end of a bounded execution. -/
def Run.errno {σ : Type} : Run σ → Int
  | .returned _ e _ => e
  | .out_of_fuel e _ => e

/-! ## A model of the queue

The queue primitives and `poll` belong to the operating system. The model
below follows the spec's data model (an already-open queue with a capacity and
a message size) and the POSIX rules for the three calls, for a single caller:
nobody else sends or receives. -/

/-- Linux `POLLNVAL`. -/
def POLLNVAL : Int := 32

/-- Modelled from the spec: the state behind one open queue handle `mqd`, as a
bounded message store. `msgs` holds the pending (priority, payload) pairs in the
order they will be received; `buf` and `prio` are the caller's receive buffer
and priority variable; `now` is the monotonic clock. -/
structure mq_world where
  mqd : Int
  mq_maxmsg : Nat
  mq_msgsize : Nat
  nonblock : Bool
  msgs : List (Nat × List Char)
  buf : List Char
  prio : Nat
  now : timespec
deriving DecidableEq

/-- Modelled from the spec: a message is queued behind every pending message
of the same or a higher priority. -/
def mq_insert (m : Nat × List Char) : List (Nat × List Char) → List (Nat × List Char)
  | [] => [m]
  | x :: xs => if x.1 < m.1 then m :: x :: xs else x :: mq_insert m xs

/-- Modelled from the spec: `mq_timedsend` with a deadline that has passed
(the zero timeout). It fails on a foreign handle, an oversized message or an
invalid priority or deadline; it queues the message when there is free space;
on a full queue it reports `EAGAIN` (non-blocking handle) or `ETIMEDOUT`. -/
def mq_model_send (mqdes : Int) (msg_ptr : List Char) (msg_len : Nat) (msg_prio : Nat)
    (abs_timeout : timespec) (w : mq_world) (errno : Int) : SysRet mq_world :=
  if mqdes ≠ w.mqd then ⟨-1, EBADF, w⟩
  else if msg_len > w.mq_msgsize then ⟨-1, EMSGSIZE, w⟩
  else if msg_prio ≥ MQ_PRIO_MAX then ⟨-1, EINVAL, w⟩
  else if w.msgs.length < w.mq_maxmsg then
    ⟨0, errno, { w with msgs := mq_insert (msg_prio, msg_ptr.take msg_len) w.msgs }⟩
  else if w.nonblock then ⟨-1, EAGAIN, w⟩
  else if !is_timetout_valid (some abs_timeout) then ⟨-1, EINVAL, w⟩
  else ⟨-1, ETIMEDOUT, w⟩

/-- Modelled from the spec: `mq_timedreceive` with a deadline that has passed
(the zero timeout). It fails on a foreign handle or a buffer smaller than the
queue's message size; it removes the first pending message, copies it to the
start of the buffer and returns its length; on an empty queue it reports
`EAGAIN` (non-blocking handle) or `ETIMEDOUT`. -/
def mq_model_receive (mqdes : Int) (msg_len : Nat) (msg_prio : Bool)
    (abs_timeout : timespec) (w : mq_world) (errno : Int) : SysRet mq_world :=
  if mqdes ≠ w.mqd then ⟨-1, EBADF, w⟩
  else if msg_len < w.mq_msgsize then ⟨-1, EMSGSIZE, w⟩
  else
    match w.msgs with
    | m :: rest =>
      ⟨m.2.length, errno,
        { w with msgs := rest, buf := m.2 ++ w.buf.drop m.2.length,
                 prio := if msg_prio then m.1 else w.prio }⟩
    | [] =>
      if w.nonblock then ⟨-1, EAGAIN, w⟩
      else if !is_timetout_valid (some abs_timeout) then ⟨-1, EINVAL, w⟩
      else ⟨-1, ETIMEDOUT, w⟩

/-- The time `ms` milliseconds after `t`, normalised. -/
def timespec.add_ms (t : timespec) (ms : Int) : timespec :=
  ⟨t.tv_sec + (t.tv_nsec + ms * 1000000) / 1000000000,
    (t.tv_nsec + ms * 1000000) % 1000000000⟩

/-- Modelled from the spec: `poll` on the queue handle. A foreign handle is
reported with `POLLNVAL`. The handle is readable when a message is pending and
writable when there is free space; when a watched direction is ready the call
returns 1 at once. Otherwise nothing can make the handle ready, so the wait
lasts its whole budget: the clock advances by `timeout` milliseconds and the
call returns 0; an unbounded wait (negative timeout) ends only with a signal. -/
def mq_model_poll (fds : pollfd) (timeout : Int) (w : mq_world) (errno : Int) :
    PollRet mq_world :=
  if fds.fd ≠ w.mqd then ⟨1, POLLNVAL, errno, w⟩
  else
    let r_in : Int := if fds.events % 2 = 1 ∧ w.msgs ≠ [] then POLLIN else 0
    let r_out : Int :=
      if (fds.events / 4) % 2 = 1 ∧ w.msgs.length < w.mq_maxmsg then POLLOUT else 0
    if r_in + r_out ≠ 0 then ⟨1, r_in + r_out, errno, w⟩
    else if timeout < 0 then ⟨-1, 0, EINTR, w⟩
    else ⟨0, 0, errno, { w with now := w.now.add_ms timeout }⟩

/-- Modelled from the spec: the system seen by a single caller of one queue. -/
def mq_sys : Sys mq_world where
  mq_timedreceive := mq_model_receive
  mq_timedsend := mq_model_send
  clock_gettime := fun _ w e => ⟨0, w.now, e, w⟩
  poll := mq_model_poll

/-- The queue of the test fixture (`mq_maxmsg = 1`, `mq_msgsize = 64`), empty,
with a zeroed 64-byte receive buffer and the clock at 100 s. -/
def fixture_world : mq_world :=
  { mqd := 3, mq_maxmsg := 1, mq_msgsize := 64, nonblock := false, msgs := [],
    buf := List.replicate 64 (Char.ofNat 0), prio := 0, now := ⟨100, 0⟩ }

/-- The message of the test `send_and_receive`: the 16 bytes of the C string
`"hello monotonic"`, terminator included. -/
def hello_msg : List Char := "hello monotonic".toList ++ [Char.ofNat 0]

/-- A queue like the fixture's but with room for two messages, one of which
(`"old"`, priority 0) is already pending. -/
def pending_world : mq_world :=
  { fixture_world with mq_maxmsg := 2, msgs := [(0, "old".toList)] }

/-! ## A scripted system -/

/-- The reports still to be given by each primitive, in order. -/
structure script_world where
  probes : List (Int × Int)
  clocks : List (Int × timespec × Int)
  polls : List (Int × Int)
deriving DecidableEq

/-- A system whose primitives report what the script says: each call takes
the next (return value, `errno`) entry of its list; an exhausted list reports
a failure with `EBADF`. -/
def script_sys : Sys script_world where
  mq_timedreceive := fun _ _ _ _ w _ =>
    match w.probes with
    | [] => ⟨-1, EBADF, w⟩
    | x :: rest => ⟨x.1, x.2, { w with probes := rest }⟩
  mq_timedsend := fun _ _ _ _ _ w _ =>
    match w.probes with
    | [] => ⟨-1, EBADF, w⟩
    | x :: rest => ⟨x.1, x.2, { w with probes := rest }⟩
  clock_gettime := fun _ w _ =>
    match w.clocks with
    | [] => ⟨-1, ⟨0, 0⟩, EBADF, w⟩
    | x :: rest => ⟨x.1, x.2.1, x.2.2, { w with clocks := rest }⟩
  poll := fun _ _ w _ =>
    match w.polls with
    | [] => ⟨-1, 0, EBADF, w⟩
    | x :: rest => ⟨x.1, 0, x.2, { w with polls := rest }⟩

/-- A control point is sound for the deadline `ts` when the timeout it is
about to wait with, if any, is a non-zero result of the delta calculator. -/
def Ctrl.sound (ts : timespec) : Ctrl → Prop
  | .at_poll d => d ≠ 0 ∧ ∃ t, d = calculate_delta_time_ms ts t
  | _ => True

/-! ## One loop, two directions -/

/-- The single parametrized operation of the spec's design notes ("a single
parametrized loop, direction as a parameter"): the validation of the deadline,
then `driver_loop` with the probe `prb`, the conversion `narrow` of its return
value and the readiness direction `events`. -/
def timed_driver {σ : Type} (S : Sys σ) (prb : σ → Int → SysRet σ) (narrow : Int → Int)
    (events : Int) (fuel : Nat) (mqdes : Int) (abs_timeout : Option timespec)
    (w : σ) (errno : Int) : Run σ :=
  if !is_timetout_valid abs_timeout then .returned (-1) EINVAL w
  else
    match abs_timeout with
    | none => .returned (-1) EINVAL w
    | some ts => driver_loop S prb narrow events mqdes ts fuel w errno

/-- A logged call without what tells the two operations apart: which queue
primitive was probed (and its message arguments), and which readiness
direction was watched. -/
inductive CallShape where
  | probe (mqdes : Int) (abs_timeout : timespec) (ret : Int) (errno : Int)
  | clock (clk : Int) (ret : Int) (time : timespec) (errno : Int)
  | wait (fd : Int) (revents : Int) (timeout : Int) (ret : Int) (errno : Int)
deriving DecidableEq

/-- The shape of a logged call. -/
def Call.shape : Call → CallShape
  | .mq_timedreceive mqdes _ t r e => .probe mqdes t r e
  | .mq_timedsend mqdes _ _ t r e => .probe mqdes t r e
  | .clock_gettime clk r t e => .clock clk r t e
  | .poll fds d r e => .wait fds.fd fds.revents d r e

/-- Two bounded executions over a traced system got equally far, with the
same `errno`, the same world and logs of the same shape. -/
def Run.similar {σ : Type} (R1 R2 : Run (σ × List Call)) : Prop :=
  (R1.ret?.isSome = R2.ret?.isSome) ∧ R1.errno = R2.errno ∧ R1.world.1 = R2.world.1 ∧
    R1.log.map Call.shape = R2.log.map Call.shape

/-! ## A clock that advances while the wait blocks -/

/-- The world of a caller whose waits take time. `now` is the monotonic
clock; `probes` holds the reports still to be given by the queue primitive;
`polls` holds, for the waits that end before their budget, the time they last
in milliseconds with the value and `errno` they report; `waits` records, for
every `poll` issued, the time at which it was called and the timeout passed. -/
structure tick_world where
  now : timespec
  probes : List (Int × Int)
  polls : List (Int × Int × Int)
  waits : List (timespec × Int)
deriving DecidableEq

/-- A system in which time passes only inside `poll`. The queue primitive
reports what `probes` says and would-block (`EAGAIN`) once that is exhausted;
the clock read succeeds and leaves `errno` alone. A `poll` with a timeout that
is not negative lasts the time its entry of `polls` says and reports what the
entry says, unless the budget is used up first or no entry is left: then it
lasts exactly the timeout and returns 0. A `poll` without a bound can only be
interrupted. -/
def tick_sys : Sys tick_world where
  mq_timedreceive := fun _ _ _ _ w _ =>
    match w.probes with
    | [] => ⟨-1, EAGAIN, w⟩
    | x :: rest => ⟨x.1, x.2, { w with probes := rest }⟩
  mq_timedsend := fun _ _ _ _ _ w _ =>
    match w.probes with
    | [] => ⟨-1, EAGAIN, w⟩
    | x :: rest => ⟨x.1, x.2, { w with probes := rest }⟩
  clock_gettime := fun _ w e => ⟨0, w.now, e, w⟩
  poll := fun _ timeout w e =>
    if timeout < 0 then
      ⟨-1, 0, EINTR, { w with waits := w.waits ++ [(w.now, timeout)] }⟩
    else
      match w.polls with
      | [] =>
        ⟨0, 0, e, { w with now := w.now.add_ms timeout,
                           waits := w.waits ++ [(w.now, timeout)] }⟩
      | x :: rest =>
        if timeout ≤ x.1 then
          ⟨0, 0, e, { w with now := w.now.add_ms timeout, polls := rest,
                             waits := w.waits ++ [(w.now, timeout)] }⟩
        else
          ⟨x.2.1, 0, x.2.2, { w with now := w.now.add_ms x.1, polls := rest,
                                     waits := w.waits ++ [(w.now, timeout)] }⟩

/-! ## Arithmetic facts -/

theorem wrap64_of_range (x : Int) (h1 : -9223372036854775808 ≤ x)
    (h2 : x ≤ 9223372036854775807) : wrap64 x = x := by
  unfold wrap64; omega

theorem wrap64_range (x : Int) :
    -9223372036854775808 ≤ wrap64 x ∧ wrap64 x ≤ 9223372036854775807 := by
  unfold wrap64; omega

theorem wrap32_of_range (x : Int) (h1 : -2147483648 ≤ x) (h2 : x ≤ 2147483647) :
    wrap32 x = x := by
  unfold wrap32; omega

theorem is_timetout_valid_some (ts : timespec) :
    is_timetout_valid (some ts) = true ↔
      0 ≤ ts.tv_sec ∧ 0 ≤ ts.tv_nsec ∧ ts.tv_nsec < 1000000000 := by
  simp only [is_timetout_valid, NANOS_PER_SEC]
  constructor
  · intro h
    split_ifs at h with h1 h2
    omega
  · intro h
    split_ifs with h1 h2
    · omega
    · omega
    · rfl

/-- The value computed by `calculate_delta_time_ms` when the deadline is not
before the current time, the nanosecond fields are normalised and the
true distance in whole milliseconds fits a `long long`: the floor of the true
distance in milliseconds, clamped at `INT_MAX`. -/
theorem calculate_delta_time_ms_no_overflow (d n : timespec)
    (hd : 0 ≤ d.tv_nsec ∧ d.tv_nsec < 1000000000)
    (hn : 0 ≤ n.tv_nsec ∧ n.tv_nsec < 1000000000)
    (hle : timespec.le n d)
    (hfit : true_delta_ns d n / 1000000 ≤ LLONG_MAX) :
    calculate_delta_time_ms d n = min (true_delta_ns d n / 1000000) INT_MAX := by
  unfold timespec.le at hle
  unfold true_delta_ns LLONG_MAX at hfit
  unfold calculate_delta_time_ms true_delta_ns
  simp only [NANOS_PER_SEC, MILLIS_PER_SEC, NANOS_PER_MILLI, INT_MAX]
  have e1 : wrap64 (d.tv_sec - n.tv_sec) = d.tv_sec - n.tv_sec :=
    wrap64_of_range _ (by omega) (by omega)
  have e2 : wrap64 (d.tv_nsec - n.tv_nsec) = d.tv_nsec - n.tv_nsec :=
    wrap64_of_range _ (by omega) (by omega)
  rw [e1, e2]
  by_cases hb : d.tv_nsec - n.tv_nsec < 0
  · have e3 : wrap64 (d.tv_sec - n.tv_sec - 1) = d.tv_sec - n.tv_sec - 1 :=
      wrap64_of_range _ (by omega) (by omega)
    have e4 : wrap64 (d.tv_nsec - n.tv_nsec + 1000000000)
        = d.tv_nsec - n.tv_nsec + 1000000000 :=
      wrap64_of_range _ (by omega) (by omega)
    have e5 : wrap64 ((d.tv_sec - n.tv_sec - 1) * 1000) = (d.tv_sec - n.tv_sec - 1) * 1000 :=
      wrap64_of_range _ (by omega) (by omega)
    have e6 : Int.tdiv (d.tv_nsec - n.tv_nsec + 1000000000) 1000000
        = (d.tv_nsec - n.tv_nsec + 1000000000) / 1000000 :=
      Int.tdiv_eq_ediv (by omega) (by omega)
    have e7 : wrap64 ((d.tv_sec - n.tv_sec - 1) * 1000
        + (d.tv_nsec - n.tv_nsec + 1000000000) / 1000000)
        = (d.tv_sec - n.tv_sec - 1) * 1000
          + (d.tv_nsec - n.tv_nsec + 1000000000) / 1000000 :=
      wrap64_of_range _ (by omega) (by omega)
    simp only [if_pos hb, e3, e4, e5, e6, e7]
    have hs : ¬ (d.tv_sec - n.tv_sec - 1 < 0) := by omega
    rw [if_neg hs]
    have hm : ¬ ((d.tv_sec - n.tv_sec - 1) * 1000
        + (d.tv_nsec - n.tv_nsec + 1000000000) / 1000000 < 0) := by omega
    rw [if_neg hm]
    split_ifs with h1
    · rw [wrap32_of_range _ (by omega) (by omega)]; omega
    · rw [wrap32_of_range _ (by omega) (by omega)]; omega
  · have e5 : wrap64 ((d.tv_sec - n.tv_sec) * 1000) = (d.tv_sec - n.tv_sec) * 1000 :=
      wrap64_of_range _ (by omega) (by omega)
    have e6 : Int.tdiv (d.tv_nsec - n.tv_nsec) 1000000
        = (d.tv_nsec - n.tv_nsec) / 1000000 :=
      Int.tdiv_eq_ediv (by omega) (by omega)
    have e7 : wrap64 ((d.tv_sec - n.tv_sec) * 1000 + (d.tv_nsec - n.tv_nsec) / 1000000)
        = (d.tv_sec - n.tv_sec) * 1000 + (d.tv_nsec - n.tv_nsec) / 1000000 :=
      wrap64_of_range _ (by omega) (by omega)
    simp only [if_neg hb, e5, e6, e7]
    have hs : ¬ (d.tv_sec - n.tv_sec < 0) := by omega
    rw [if_neg hs]
    have hm : ¬ ((d.tv_sec - n.tv_sec) * 1000
        + (d.tv_nsec - n.tv_nsec) / 1000000 < 0) := by omega
    rw [if_neg hm]
    split_ifs with h1
    · rw [wrap32_of_range _ (by omega) (by omega)]; omega
    · rw [wrap32_of_range _ (by omega) (by omega)]; omega

/-- Clamp, where the arithmetic does not overflow: a deadline whose true
distance exceeds `INT_MAX` milliseconds but fits a `long long` gives `INT_MAX`. -/
theorem calculate_delta_time_ms_clamp_no_overflow (d n : timespec)
    (hd : 0 ≤ d.tv_nsec ∧ d.tv_nsec < 1000000000)
    (hn : 0 ≤ n.tv_nsec ∧ n.tv_nsec < 1000000000)
    (hle : timespec.le n d)
    (hfit : true_delta_ns d n / 1000000 ≤ LLONG_MAX)
    (hbig : INT_MAX < true_delta_ns d n / 1000000) :
    calculate_delta_time_ms d n = INT_MAX := by
  rw [calculate_delta_time_ms_no_overflow d n hd hn hle hfit]
  exact min_eq_right (le_of_lt hbig)

/-- Monotonicity, where the arithmetic does not overflow: a later current time
never gives a larger remaining time. -/
theorem calculate_delta_time_ms_antitone_no_overflow (d n1 n2 : timespec)
    (hd : 0 ≤ d.tv_nsec ∧ d.tv_nsec < 1000000000)
    (hn1 : 0 ≤ n1.tv_nsec ∧ n1.tv_nsec < 1000000000)
    (hn2 : 0 ≤ n2.tv_nsec ∧ n2.tv_nsec < 1000000000)
    (h12 : timespec.le n1 n2) (h2d : timespec.le n2 d)
    (hfit : true_delta_ns d n1 / 1000000 ≤ LLONG_MAX) :
    calculate_delta_time_ms d n2 ≤ calculate_delta_time_ms d n1 := by
  have h1d : timespec.le n1 d := by
    unfold timespec.le at *; omega
  have hmono : true_delta_ns d n2 / 1000000 ≤ true_delta_ns d n1 / 1000000 := by
    unfold timespec.le at *
    unfold true_delta_ns
    omega
  rw [calculate_delta_time_ms_no_overflow d n1 hd hn1 h1d hfit,
    calculate_delta_time_ms_no_overflow d n2 hd hn2 h2d (le_trans hmono hfit)]
  exact min_le_min hmono le_rfl

/-! ## The claims about the validator and the delta calculator -/

/-- C1: `is_timetout_valid` accepts exactly the deadlines that are present and
have seconds `≥ 0` and `0 ≤ nanoseconds < 1,000,000,000`; every other input
(absent, negative seconds, nanoseconds out of range) is rejected. The
criterion mentions no current time, so expired deadlines are accepted. -/
theorem is_timetout_valid_spec (abs_timeout : Option timespec) :
    is_timetout_valid abs_timeout = true ↔
      ∃ ts, abs_timeout = some ts ∧
        0 ≤ ts.tv_sec ∧ 0 ≤ ts.tv_nsec ∧ ts.tv_nsec < 1000000000 := by
  cases abs_timeout with
  | none => simp [is_timetout_valid]
  | some ts =>
    rw [is_timetout_valid_some]
    constructor
    · intro h; exact ⟨ts, rfl, h⟩
    · rintro ⟨t, ht, h⟩
      cases ht
      exact h

/-- C2: for a well-formed deadline and a well-formed current time with
deadline `≥` now whose true distance in whole milliseconds does not exceed
`INT_MAX`, `calculate_delta_time_ms` is the floor of the true distance in
nanoseconds divided by 1,000,000, borrow case included. -/
theorem calculate_delta_time_ms_exact (deadline now : timespec)
    (hd : is_timetout_valid (some deadline) = true)
    (hn : is_timetout_valid (some now) = true)
    (hle : timespec.le now deadline)
    (hfit : Int.fdiv ((deadline.tv_sec - now.tv_sec) * 1000000000
      + (deadline.tv_nsec - now.tv_nsec)) 1000000 ≤ INT_MAX) :
    calculate_delta_time_ms deadline now =
      Int.fdiv ((deadline.tv_sec - now.tv_sec) * 1000000000
        + (deadline.tv_nsec - now.tv_nsec)) 1000000 := by
  rw [is_timetout_valid_some] at hd hn
  rw [Int.fdiv_eq_ediv _ (by decide)] at hfit ⊢
  have hfit1 : true_delta_ns deadline now / 1000000 ≤ INT_MAX := hfit
  have h := calculate_delta_time_ms_no_overflow deadline now hd.2 hn.2 hle
    (le_trans hfit1 (by decide))
  rw [h]
  exact min_eq_left hfit1

/-- The two inputs of the unit tests `delta_time_basic_cases` and
`delta_time_nsec_borrow`, through `calculate_delta_time_ms_exact`. -/
theorem calculate_delta_time_ms_exact_witness :
    calculate_delta_time_ms ⟨12, 500000000⟩ ⟨10, 500000000⟩ = 2000 ∧
    calculate_delta_time_ms ⟨11, 100000000⟩ ⟨10, 900000000⟩ = 200 :=
  ⟨(calculate_delta_time_ms_exact ⟨12, 500000000⟩ ⟨10, 500000000⟩
      (by decide) (by decide) (by decide) (by decide)).trans (by decide),
   (calculate_delta_time_ms_exact ⟨11, 100000000⟩ ⟨10, 900000000⟩
      (by decide) (by decide) (by decide) (by decide)).trans (by decide)⟩

/-- C3: for every pair of `timespec` values, well-formed or not,
`calculate_delta_time_ms` returns a value between 0 and `INT_MAX`. -/
theorem calculate_delta_time_ms_range (abs_timeout time_current : timespec) :
    0 ≤ calculate_delta_time_ms abs_timeout time_current ∧
      calculate_delta_time_ms abs_timeout time_current ≤ INT_MAX := by
  unfold calculate_delta_time_ms
  simp only [INT_MAX]
  split_ifs <;>
    first
    | exact ⟨le_refl _, by decide⟩
    | (constructor <;> decide)
    | (rw [wrap32_of_range _ (by omega) (by omega)]; constructor <;> omega)

/-- C4: for a well-formed deadline and a well-formed current time with
deadline `≤` now in the lexicographic order on (seconds, nanoseconds),
`calculate_delta_time_ms` returns exactly 0. -/
theorem calculate_delta_time_ms_expired (deadline now : timespec)
    (hd : is_timetout_valid (some deadline) = true)
    (hn : is_timetout_valid (some now) = true)
    (hrd : deadline.representable) (hrn : now.representable)
    (hle : timespec.le deadline now) :
    calculate_delta_time_ms deadline now = 0 := by
  rw [is_timetout_valid_some] at hd hn
  unfold timespec.representable LLONG_MIN LLONG_MAX at hrd hrn
  unfold timespec.le at hle
  unfold calculate_delta_time_ms
  simp only [NANOS_PER_SEC, MILLIS_PER_SEC, NANOS_PER_MILLI, INT_MAX]
  have e1 : wrap64 (deadline.tv_sec - now.tv_sec) = deadline.tv_sec - now.tv_sec :=
    wrap64_of_range _ (by omega) (by omega)
  have e2 : wrap64 (deadline.tv_nsec - now.tv_nsec) = deadline.tv_nsec - now.tv_nsec :=
    wrap64_of_range _ (by omega) (by omega)
  rw [e1, e2]
  by_cases hb : deadline.tv_nsec - now.tv_nsec < 0
  · have e3 : wrap64 (deadline.tv_sec - now.tv_sec - 1) = deadline.tv_sec - now.tv_sec - 1 :=
      wrap64_of_range _ (by omega) (by omega)
    simp only [if_pos hb, e3]
    rw [if_pos (by omega)]
  · simp only [if_neg hb]
    by_cases hs : deadline.tv_sec - now.tv_sec < 0
    · rw [if_pos hs]
    · rw [if_neg hs]
      have hs0 : deadline.tv_sec - now.tv_sec = 0 := by omega
      have hn0 : deadline.tv_nsec - now.tv_nsec = 0 := by omega
      rw [hs0, hn0]
      decide

/-- The input of the unit test `delta_time_expired`, through
`calculate_delta_time_ms_expired`. -/
theorem calculate_delta_time_ms_expired_witness :
    timespec.le ⟨9, 999000000⟩ ⟨10, 0⟩ ∧
      calculate_delta_time_ms ⟨9, 999000000⟩ ⟨10, 0⟩ = 0 :=
  ⟨by decide, calculate_delta_time_ms_expired ⟨9, 999000000⟩ ⟨10, 0⟩
    (by decide) (by decide) (by decide) (by decide) (by decide)⟩

/-- C5: the clamp is missed when `sec * 1000` leaves the `long long` range. The
deadline `{LLONG_MAX, 0}` is well-formed and lies more than `INT_MAX`
milliseconds after the current time `{0, 0}`, yet the product wraps to `-1000`
and `calculate_delta_time_ms` returns 0 instead of `INT_MAX`. The input of the
unit test, `{LLONG_MAX / 1000, 0}`, is the largest whole second that still clamps. -/
theorem calculate_delta_time_ms_clamp_missed :
    is_timetout_valid (some ⟨9223372036854775807, 0⟩) = true ∧
    is_timetout_valid (some ⟨0, 0⟩) = true ∧
    timespec.representable ⟨9223372036854775807, 0⟩ ∧
    INT_MAX < true_delta_ns ⟨9223372036854775807, 0⟩ ⟨0, 0⟩ / 1000000 ∧
    calculate_delta_time_ms ⟨9223372036854775807, 0⟩ ⟨0, 0⟩ = 0 ∧
    calculate_delta_time_ms ⟨9223372036854775807 / 1000, 0⟩ ⟨0, 0⟩ = INT_MAX := by
  decide

/-- C6: monotonicity in the current time is lost where the millisecond count
leaves the `long long` range. For the well-formed deadline
`{9223372036854775, 900000000}` and the current times `{0, 0} ≤ {0, 500000000}`,
both before the deadline, the earlier time gives 0 (the sum wraps) and the
later one gives `INT_MAX`. -/
theorem calculate_delta_time_ms_antitone_missed :
    is_timetout_valid (some ⟨9223372036854775, 900000000⟩) = true ∧
    timespec.representable ⟨9223372036854775, 900000000⟩ ∧
    timespec.le ⟨0, 0⟩ ⟨0, 500000000⟩ ∧
    timespec.le ⟨0, 500000000⟩ ⟨9223372036854775, 900000000⟩ ∧
    calculate_delta_time_ms ⟨9223372036854775, 900000000⟩ ⟨0, 0⟩ = 0 ∧
    calculate_delta_time_ms ⟨9223372036854775, 900000000⟩ ⟨0, 500000000⟩ = 2147483647 := by
  decide

/-! ## The drivers: shape and log -/

theorem timed_loop_eq_driver_loop {σ : Type} (S : Sys σ) (op : Op) (a : Args)
    (ts : timespec) (fuel : Nat) (w : σ) (errno : Int) :
    timed_loop S op a ts fuel w errno =
      driver_loop S (probe S op a) op.narrow op.events a.mqdes ts fuel w errno := by
  induction fuel generalizing w errno with
  | zero => cases op <;> rfl
  | succ n ih =>
    cases op
    · have ih1 := fun w e => ih w e
      simp only [timed_loop] at ih1 ⊢
      simp only [mq_timedreceive_loop, driver_loop, probe, Op.narrow, Op.events]
      split_ifs <;> try rfl
      split <;> simp_all [Op.narrow, Op.events]
    · have ih1 := fun w e => ih w e
      simp only [timed_loop] at ih1 ⊢
      simp only [mq_timedsend_loop, driver_loop, probe, Op.narrow, Op.events]
      split_ifs <;> try rfl
      split <;> simp_all [Op.narrow, Op.events]

theorem timed_op_of_valid {σ : Type} (S : Sys σ) (op : Op) (fuel : Nat) (a : Args)
    (ts : timespec) (w : σ) (errno : Int) (hv : is_timetout_valid (some ts) = true) :
    timed_op S op fuel a (some ts) w errno = timed_loop S op a ts fuel w errno := by
  cases op <;>
    simp [timed_op, timed_loop, mq_timedreceive_monotonic, mq_timedsend_monotonic, hv]

theorem timed_op_of_invalid {σ : Type} (S : Sys σ) (op : Op) (fuel : Nat) (a : Args)
    (abs_timeout : Option timespec) (w : σ) (errno : Int)
    (hv : is_timetout_valid abs_timeout = false) :
    timed_op S op fuel a abs_timeout w errno = Run.returned (-1) EINVAL w := by
  cases op <;>
    simp [timed_op, mq_timedreceive_monotonic, mq_timedsend_monotonic, hv]

theorem Ctrl.run_append (op : Op) (a : Args) (ts : timespec) (st : Ctrl)
    (l1 l2 : List Call) :
    Ctrl.run op a ts st (l1 ++ l2) =
      (Ctrl.run op a ts st l1).bind (fun s => Ctrl.run op a ts s l2) := by
  induction l1 generalizing st with
  | nil => rfl
  | cons c cs ih =>
    simp only [List.cons_append, Ctrl.run]
    cases h : Ctrl.step op a ts st c with
    | none => rfl
    | some st1 => exact ih st1

theorem Ctrl.run_snoc (op : Op) (a : Args) (ts : timespec) (st0 st st1 : Ctrl)
    (l : List Call) (c : Call) (h : Ctrl.run op a ts st0 l = some st)
    (hs : Ctrl.step op a ts st c = some st1) :
    Ctrl.run op a ts st0 (l ++ [c]) = some st1 := by
  rw [Ctrl.run_append, h]
  simp [Ctrl.run, hs]

theorem traced_clock_gettime {σ : Type} (S : Sys σ) (clk : Int) (w : σ)
    (log : List Call) (e : Int) :
    (traced S).clock_gettime clk (w, log) e =
      ⟨(S.clock_gettime clk w e).ret, (S.clock_gettime clk w e).time,
        (S.clock_gettime clk w e).errno,
        ((S.clock_gettime clk w e).world,
          log ++ [Call.clock_gettime clk (S.clock_gettime clk w e).ret
            (S.clock_gettime clk w e).time (S.clock_gettime clk w e).errno])⟩ := rfl

theorem traced_poll {σ : Type} (S : Sys σ) (fds : pollfd) (timeout : Int) (w : σ)
    (log : List Call) (e : Int) :
    (traced S).poll fds timeout (w, log) e =
      ⟨(S.poll fds timeout w e).ret, (S.poll fds timeout w e).revents,
        (S.poll fds timeout w e).errno,
        ((S.poll fds timeout w e).world,
          log ++ [Call.poll fds timeout (S.poll fds timeout w e).ret
            (S.poll fds timeout w e).errno])⟩ := rfl

theorem probe_traced {σ : Type} (S : Sys σ) (op : Op) (a : Args) (w : σ)
    (log : List Call) (e : Int) :
    probe (traced S) op a (w, log) e =
      ⟨(probe S op a w e).ret, (probe S op a w e).errno,
        ((probe S op a w e).world,
          log ++ [probe_call op a (probe S op a w e).ret (probe S op a w e).errno])⟩ := by
  cases op <;> rfl

theorem Ctrl.step_probe_call (op : Op) (a : Args) (ts : timespec) (r e : Int) :
    Ctrl.step op a ts .at_probe (probe_call op a r e) = some (Ctrl.after_probe op r e) := by
  cases op <;> simp [Ctrl.step, probe_call, Call.ret, Call.errno_after]

/-- The inner `do ... while` over a traced system: from the control point
`at_poll d` the log either stays there (bound reached) or reaches the control
point after the `poll` whose result is returned. -/
theorem poll_retry_conforms {σ : Type} (S : Sys σ) (op : Op) (a : Args) (ts : timespec)
    (st0 : Ctrl) (d : Int) (fuel : Nat) (fds : pollfd) (w : σ) (log : List Call) (e : Int)
    (hfd : fds.fd = wrap32 a.mqdes) (hev : fds.events = op.events)
    (hlog : Ctrl.run op a ts st0 log = some (.at_poll d)) :
    match poll_retry (traced S) fuel fds d (w, log) e with
    | .out_of_fuel _ w1 => Ctrl.run op a ts st0 w1.2 = some (.at_poll d)
    | .returned rc e1 w1 =>
      Ctrl.run op a ts st0 w1.2 = some (Ctrl.after_poll d rc e1) ∧ ¬ (rc < 0 ∧ e1 = EINTR) := by
  induction fuel generalizing fds w log e with
  | zero => simpa [poll_retry] using hlog
  | succ n ih =>
    have hstep : Ctrl.run op a ts st0
        (log ++ [Call.poll fds d (S.poll fds d w e).ret (S.poll fds d w e).errno]) =
        some (Ctrl.after_poll d (S.poll fds d w e).ret (S.poll fds d w e).errno) := by
      apply Ctrl.run_snoc op a ts st0 _ _ _ _ hlog
      simp [Ctrl.step, hfd, hev]
    simp only [poll_retry, traced_poll]
    by_cases hc : (S.poll fds d w e).ret < 0 ∧ (S.poll fds d w e).errno = EINTR
    · rw [if_pos hc]
      apply ih
      · exact hfd
      · exact hev
      · rw [hstep]; simp [Ctrl.after_poll, hc]
    · rw [if_neg hc]
      exact ⟨hstep, hc⟩

/-- The loop over a traced system: from the control point `at_probe` the log
reaches `done ret errno` exactly when the loop returned `ret` with `errno`,
and a control point that is not `done` when the bound was reached. -/
theorem driver_loop_conforms {σ : Type} (S : Sys σ) (op : Op) (a : Args) (ts : timespec)
    (st0 : Ctrl) (fuel : Nat) (w : σ) (log : List Call) (e : Int)
    (hlog : Ctrl.run op a ts st0 log = some .at_probe) :
    match driver_loop (traced S) (probe (traced S) op a) op.narrow op.events a.mqdes ts
        fuel (w, log) e with
    | .out_of_fuel _ w1 => ∃ st, Ctrl.run op a ts st0 w1.2 = some st ∧ st.is_done = false
    | .returned ret e1 w1 => Ctrl.run op a ts st0 w1.2 = some (.done ret e1) := by
  induction fuel generalizing w log e with
  | zero => exact ⟨_, hlog, rfl⟩
  | succ n ih =>
    have h1 := Ctrl.run_snoc op a ts st0 _ _ log _ hlog
      (Ctrl.step_probe_call op a ts (probe S op a w 0).ret (probe S op a w 0).errno)
    simp only [driver_loop, probe_traced, traced_clock_gettime]
    generalize probe S op a w 0 = r at h1 ⊢
    by_cases hr : r.ret ≥ 0
    · rw [if_pos hr]
      simpa [Ctrl.after_probe, hr] using h1
    · rw [if_neg hr]
      by_cases he : r.errno ≠ ETIMEDOUT ∧ r.errno ≠ EAGAIN
      · rw [if_pos he]
        simpa [Ctrl.after_probe, hr, he] using h1
      · rw [if_neg he]
        have h2 : Ctrl.run op a ts st0 (log ++ [probe_call op a r.ret r.errno])
            = some .at_clock := by
          rw [h1]; simp only [Ctrl.after_probe, if_neg hr, if_neg he]
        generalize S.clock_gettime CLOCK_MONOTONIC r.world r.errno = c
        have h3 := Ctrl.run_snoc op a ts st0 .at_clock
          (Ctrl.after_clock ts c.ret c.time c.errno) _
          (Call.clock_gettime CLOCK_MONOTONIC c.ret c.time c.errno) h2 (by simp [Ctrl.step])
        by_cases hc : c.ret ≠ 0
        · rw [if_pos hc]
          simpa [Ctrl.after_clock, hc] using h3
        · rw [if_neg hc]
          by_cases hd : 0 = calculate_delta_time_ms ts c.time
          · rw [if_pos hd]
            simp only [Ctrl.after_clock, if_neg hc, if_pos hd] at h3
            exact h3
          · rw [if_neg hd]
            simp only [Ctrl.after_clock, if_neg hc, if_neg hd] at h3
            have hp := poll_retry_conforms S op a ts st0 _ n
              ⟨wrap32 a.mqdes, op.events, 0⟩ c.world _ c.errno rfl rfl h3
            cases hpr : poll_retry (traced S) n ⟨wrap32 a.mqdes, op.events, 0⟩
                (calculate_delta_time_ms ts c.time)
                (c.world, log ++ [probe_call op a r.ret r.errno] ++
                  [Call.clock_gettime CLOCK_MONOTONIC c.ret c.time c.errno]) c.errno with
            | out_of_fuel e3 w3 =>
              rw [hpr] at hp
              exact ⟨_, hp, rfl⟩
            | returned rc e3 w3 =>
              rw [hpr] at hp
              obtain ⟨hp1, hp2⟩ := hp
              simp only []
              by_cases hrc : rc < 0
              · rw [if_pos hrc]
                have : ¬ e3 = EINTR := fun h => hp2 ⟨hrc, h⟩
                simpa [Ctrl.after_poll, hrc, this] using hp1
              · rw [if_neg hrc]
                by_cases hz : rc = 0
                · rw [if_pos hz]
                  simpa [Ctrl.after_poll, hz] using hp1
                · rw [if_neg hz]
                  have hp3 : Ctrl.run op a ts st0 w3.2 = some .at_probe := by
                    simpa [Ctrl.after_poll, hrc, hz] using hp1
                  exact ih w3.1 w3.2 e3 hp3

/-- Every bounded execution of a timed operation over a traced system, started
with an empty log and a valid deadline, leaves a log that the control points
accept: it ends at `done ret errno` exactly when the operation returned `ret`
with `errno`, and at a point that is not `done` when the bound was reached. -/
theorem timed_op_conforms {σ : Type} (S : Sys σ) (op : Op) (fuel : Nat) (a : Args)
    (ts : timespec) (w : σ) (e : Int) (hv : is_timetout_valid (some ts) = true) :
    match timed_op (traced S) op fuel a (some ts) (w, []) e with
    | .out_of_fuel _ w1 =>
      ∃ st, Ctrl.run op a ts .at_probe w1.2 = some st ∧ st.is_done = false
    | .returned ret e1 w1 => Ctrl.run op a ts .at_probe w1.2 = some (.done ret e1) := by
  rw [timed_op_of_valid _ _ _ _ _ _ _ hv, timed_loop_eq_driver_loop]
  exact driver_loop_conforms S op a ts .at_probe fuel w [] e rfl

theorem Ctrl.run_done (op : Op) (a : Args) (ts : timespec) (r e : Int) (l : List Call)
    (st : Ctrl) (h : Ctrl.run op a ts (.done r e) l = some st) :
    l = [] ∧ st = .done r e := by
  cases l with
  | nil => simp [Ctrl.run] at h; exact ⟨rfl, h.symm⟩
  | cons c cs => simp [Ctrl.run, Ctrl.step] at h

/-- If a logged call can only lead to the control point `done r e`, then it
is the last call of the log and the operation has returned `r` with `errno = e`. -/
theorem timed_op_ends_at {σ : Type} (S : Sys σ) (op : Op) (fuel : Nat) (a : Args)
    (ts : timespec) (w : σ) (errno : Int) (pre post : List Call) (c : Call) (r e : Int)
    (hlog : (timed_op (traced S) op fuel a (some ts) (w, []) errno).log = pre ++ c :: post)
    (hstep : ∀ s s1, Ctrl.step op a ts s c = some s1 → s1 = .done r e) :
    post = [] ∧ ∃ w1, timed_op (traced S) op fuel a (some ts) (w, []) errno
      = Run.returned r e (w1, pre ++ [c]) := by
  by_cases hv : is_timetout_valid (some ts) = true
  · have hconf := timed_op_conforms S op fuel a ts w errno hv
    have key : ∀ st, Ctrl.run op a ts .at_probe (pre ++ c :: post) = some st →
        post = [] ∧ st = .done r e := by
      intro st hst
      rw [Ctrl.run_append] at hst
      cases h1 : Ctrl.run op a ts .at_probe pre with
      | none => rw [h1] at hst; simp at hst
      | some s =>
        rw [h1] at hst
        simp only [Option.bind, Ctrl.run] at hst
        cases h2 : Ctrl.step op a ts s c with
        | none => rw [h2] at hst; simp at hst
        | some s1 =>
          rw [h2] at hst
          have := hstep s s1 h2
          subst this
          exact Ctrl.run_done op a ts r e post st hst
    cases hrun : timed_op (traced S) op fuel a (some ts) (w, []) errno with
    | out_of_fuel e1 w1 =>
      rw [hrun] at hconf hlog
      obtain ⟨st, hst, hnd⟩ := hconf
      simp only [Run.log, Run.world] at hlog
      rw [hlog] at hst
      obtain ⟨_, h2⟩ := key st hst
      rw [h2] at hnd
      simp [Ctrl.is_done] at hnd
    | returned ret e1 w1 =>
      rw [hrun] at hconf hlog
      simp only [Run.log, Run.world] at hlog
      simp only [] at hconf
      rw [hlog] at hconf
      obtain ⟨h1, h2⟩ := key _ hconf
      refine ⟨h1, w1.1, ?_⟩
      cases h2
      subst h1
      obtain ⟨w11, w12⟩ := w1
      simp only at hlog
      rw [hlog]
  · have hv1 : is_timetout_valid (some ts) = false := by simpa using hv
    rw [timed_op_of_invalid _ _ _ _ _ _ _ hv1] at hlog
    simp [Run.log, Run.world] at hlog

theorem Ctrl.step_hard_failure (op : Op) (a : Args) (ts : timespec) (c : Call)
    (hc : c.hard_failure) (s s1 : Ctrl) (h : Ctrl.step op a ts s c = some s1) :
    s1 = .done (-1) c.errno_after := by
  cases s with
  | at_probe =>
    simp only [Ctrl.step] at h
    split_ifs at h with h0
    cases op <;> rw [h0] at hc <;>
      simp only [probe_call, Call.hard_failure] at hc <;>
      simp only [Option.some.injEq] at h <;>
      rw [← h] <;>
      simp only [Ctrl.after_probe] <;>
      rw [if_neg (by omega), if_pos ⟨hc.2.1, hc.2.2⟩]
  | at_clock =>
    cases c with
    | clock_gettime clk rc t e =>
      simp only [Ctrl.step] at h
      split_ifs at h
      simp only [Call.hard_failure] at hc
      simp only [Option.some.injEq] at h
      rw [← h]
      simp only [Ctrl.after_clock, if_pos hc, Call.errno_after]
    | mq_timedreceive _ _ _ _ _ => simp [Ctrl.step] at h
    | mq_timedsend _ _ _ _ _ _ => simp [Ctrl.step] at h
    | poll _ _ _ _ => simp [Ctrl.step] at h
  | at_poll d =>
    cases c with
    | poll fds timeout rc e =>
      simp only [Ctrl.step] at h
      split_ifs at h
      simp only [Call.hard_failure] at hc
      simp only [Option.some.injEq] at h
      rw [← h]
      simp only [Ctrl.after_poll, Call.errno_after]
      rw [if_neg (fun h => hc.2 h.2), if_pos hc.1]
    | mq_timedreceive _ _ _ _ _ => simp [Ctrl.step] at h
    | mq_timedsend _ _ _ _ _ _ => simp [Ctrl.step] at h
    | clock_gettime _ _ _ _ => simp [Ctrl.step] at h
  | done r e => simp [Ctrl.step] at h

theorem Ctrl.step_clock_expired (op : Op) (a : Args) (ts : timespec) (clk : Int)
    (t : timespec) (e : Int) (hz : calculate_delta_time_ms ts t = 0) (s s1 : Ctrl)
    (h : Ctrl.step op a ts s (Call.clock_gettime clk 0 t e) = some s1) :
    s1 = .done (-1) ETIMEDOUT := by
  cases s with
  | at_probe =>
    simp only [Ctrl.step] at h
    split_ifs at h with h0
    cases op <;> simp [probe_call] at h0
  | at_clock =>
    simp only [Ctrl.step] at h
    split_ifs at h
    simp only [Option.some.injEq] at h
    rw [← h]
    simp [Ctrl.after_clock, hz]
  | at_poll d => simp [Ctrl.step] at h
  | done r e => simp [Ctrl.step] at h

/-! ## The claims about the two drivers -/

/-- C7: for both `mq_timedreceive_monotonic` and `mq_timedsend_monotonic` and
every deadline the validator rejects, the call returns -1 with `errno = EINVAL`
whatever the bound on loop bodies (even 0), and the world and the log of
primitive calls are what they were: no probe, no clock read, no wait. -/
theorem invalid_deadline_returns_einval {σ : Type} (S : Sys σ) (fuel : Nat) (mqdes : Int)
    (msg_ptr : List Char) (msg_len : Nat) (prio_ptr : Bool) (msg_prio : Nat)
    (abs_timeout : Option timespec) (w : σ) (log : List Call) (errno : Int)
    (hinv : is_timetout_valid abs_timeout = false) :
    mq_timedreceive_monotonic (traced S) fuel mqdes msg_len prio_ptr abs_timeout (w, log) errno
      = Run.returned (-1) EINVAL (w, log) ∧
    mq_timedsend_monotonic (traced S) fuel mqdes msg_ptr msg_len msg_prio abs_timeout
      (w, log) errno = Run.returned (-1) EINVAL (w, log) := by
  simp [mq_timedreceive_monotonic, mq_timedsend_monotonic, hinv]

/-- The test `invalid_timeout_returns_einval`: receive with the deadline `{-1, 0}`
on the fixture queue, through `invalid_deadline_returns_einval`. -/
theorem invalid_deadline_returns_einval_witness :
    is_timetout_valid (some ⟨-1, 0⟩) = false ∧
    mq_timedreceive_monotonic (traced mq_sys) 0 3 64 false (some ⟨-1, 0⟩)
      (fixture_world, []) 0 = Run.returned (-1) EINVAL (fixture_world, []) :=
  ⟨by decide,
    (invalid_deadline_returns_einval mq_sys 0 3 [] 64 false 0 (some ⟨-1, 0⟩)
      fixture_world [] 0 (by decide)).1⟩

/-- C8: in every bounded execution of either timed operation, wherever the log
shows a probe followed by a successful clock read whose sample leaves a
remaining time of exactly 0, that clock read is the last primitive call: the
operation has returned -1 with `errno = ETIMEDOUT` and no `poll` (nor any other
call) follows, in that iteration or later. The probe before such a clock read
had reported would-block (`ETIMEDOUT` or `EAGAIN`). -/
theorem expired_deadline_returns_timeout {σ : Type} (S : Sys σ) (op : Op) (fuel : Nat)
    (a : Args) (ts : timespec) (w : σ) (errno : Int) (pre post : List Call)
    (r e1 : Int) (t : timespec) (e2 : Int)
    (hlog : (timed_op (traced S) op fuel a (some ts) (w, []) errno).log =
      pre ++ probe_call op a r e1 :: Call.clock_gettime CLOCK_MONOTONIC 0 t e2 :: post)
    (hzero : calculate_delta_time_ms ts t = 0) :
    post = [] ∧
    (r < 0 ∧ (e1 = ETIMEDOUT ∨ e1 = EAGAIN)) ∧
    ∃ w1, timed_op (traced S) op fuel a (some ts) (w, []) errno =
      Run.returned (-1) ETIMEDOUT
        (w1, pre ++ [probe_call op a r e1, Call.clock_gettime CLOCK_MONOTONIC 0 t e2]) := by
  have hlog1 : (timed_op (traced S) op fuel a (some ts) (w, []) errno).log =
      (pre ++ [probe_call op a r e1]) ++ Call.clock_gettime CLOCK_MONOTONIC 0 t e2 :: post := by
    rw [hlog]; simp
  obtain ⟨hpost, w1, hrun⟩ := timed_op_ends_at S op fuel a ts w errno _ post _ (-1) ETIMEDOUT
    hlog1 (Ctrl.step_clock_expired op a ts CLOCK_MONOTONIC t e2 hzero)
  refine ⟨hpost, ?_, w1, by rw [hrun]; simp⟩
  -- the probe before the clock read reported would-block
  have hv : is_timetout_valid (some ts) = true := by
    by_contra hv
    have hv1 : is_timetout_valid (some ts) = false := by simpa using hv
    rw [timed_op_of_invalid _ _ _ _ _ _ _ hv1] at hlog
    simp [Run.log, Run.world] at hlog
  have hconf := timed_op_conforms S op fuel a ts w errno hv
  rw [hrun] at hconf
  simp only [] at hconf
  rw [Ctrl.run_append, Ctrl.run_append] at hconf
  cases h1 : Ctrl.run op a ts .at_probe pre with
  | none => rw [h1] at hconf; simp at hconf
  | some s =>
    rw [h1] at hconf
    simp only [Option.bind, Ctrl.run] at hconf
    cases s with
    | at_probe =>
      rw [Ctrl.step_probe_call] at hconf
      simp only [] at hconf
      by_cases hr : r ≥ 0
      · simp [Ctrl.after_probe, hr, Ctrl.step] at hconf
      · by_cases he : e1 ≠ ETIMEDOUT ∧ e1 ≠ EAGAIN
        · simp [Ctrl.after_probe, hr, he, Ctrl.step] at hconf
        · refine ⟨by omega, ?_⟩
          by_cases h3 : e1 = ETIMEDOUT
          · exact Or.inl h3
          · exact Or.inr (by_contra fun h4 => he ⟨h3, h4⟩)
    | at_clock => cases op <;> simp [Ctrl.step, probe_call] at hconf
    | at_poll d => cases op <;> simp [Ctrl.step, probe_call] at hconf
    | done r0 e0 => simp [Ctrl.step] at hconf

/-- Receive on the empty fixture queue (clock at 100 s) with the deadline
`{99, 0}`, through `expired_deadline_returns_timeout`: one probe, one clock
read, then Timeout. -/
theorem expired_deadline_returns_timeout_witness :
    calculate_delta_time_ms ⟨99, 0⟩ ⟨100, 0⟩ = 0 ∧
    ∃ w1, timed_op (traced mq_sys) .receive 1 ⟨3, [], 64, false, 0⟩ (some ⟨99, 0⟩)
      (fixture_world, []) 0 =
      Run.returned (-1) ETIMEDOUT
        (w1, [] ++ [Call.mq_timedreceive 3 64 zero_timeout (-1) ETIMEDOUT,
          Call.clock_gettime CLOCK_MONOTONIC 0 ⟨100, 0⟩ ETIMEDOUT]) :=
  ⟨by decide,
    (expired_deadline_returns_timeout mq_sys .receive 1 ⟨3, [], 64, false, 0⟩ ⟨99, 0⟩
      fixture_world 0 [] [] (-1) ETIMEDOUT ⟨100, 0⟩ ETIMEDOUT (by decide) (by decide)).2.2⟩

/-- C9: in every bounded execution of either timed operation, wherever the log
shows a hard failure (a probe failing with a cause other than `ETIMEDOUT` /
`EAGAIN`, a failed clock read, a `poll` failing with a cause other than
`EINTR`), that call is the last primitive call: the operation has returned -1
and `errno` is the cause the failing primitive reported. -/
theorem hard_error_returns_at_once {σ : Type} (S : Sys σ) (op : Op) (fuel : Nat)
    (a : Args) (abs_timeout : Option timespec) (w : σ) (errno : Int)
    (pre post : List Call) (c : Call)
    (hlog : (timed_op (traced S) op fuel a abs_timeout (w, []) errno).log = pre ++ c :: post)
    (hc : c.hard_failure) :
    post = [] ∧
    ∃ w1, timed_op (traced S) op fuel a abs_timeout (w, []) errno =
      Run.returned (-1) c.errno_after (w1, pre ++ [c]) := by
  cases abs_timeout with
  | none =>
    rw [timed_op_of_invalid (traced S) op fuel a none (w, []) errno rfl] at hlog
    simp [Run.log, Run.world] at hlog
  | some ts =>
    exact timed_op_ends_at S op fuel a ts w errno pre post c (-1) c.errno_after hlog
      (Ctrl.step_hard_failure op a ts c hc)

/-- Three hard failures through `hard_error_returns_at_once`: a receive into
an 8-byte buffer on the fixture queue (`EMSGSIZE`); a clock read failing with
`EINVAL` after a would-block probe; a `poll` failing with `ENOMEM` (12) after
one interrupted `poll`. -/
theorem hard_error_returns_at_once_witness :
    (∃ w1, timed_op (traced mq_sys) .receive 1 ⟨3, [], 8, false, 0⟩ (some ⟨200, 0⟩)
      (fixture_world, []) 0 =
      Run.returned (-1) EMSGSIZE
        (w1, [] ++ [Call.mq_timedreceive 3 8 zero_timeout (-1) EMSGSIZE])) ∧
    (∃ w1, timed_op (traced script_sys) .send 1 ⟨3, [], 0, false, 0⟩ (some ⟨2, 0⟩)
      (⟨[(-1, EAGAIN)], [(-1, ⟨0, 0⟩, EINVAL)], []⟩, []) 0 =
      Run.returned (-1) EINVAL
        (w1, [Call.mq_timedsend 3 0 0 zero_timeout (-1) EAGAIN] ++
          [Call.clock_gettime CLOCK_MONOTONIC (-1) ⟨0, 0⟩ EINVAL])) ∧
    (∃ w1, timed_op (traced script_sys) .receive 3 ⟨3, [], 64, false, 0⟩ (some ⟨2, 0⟩)
      (⟨[(-1, EAGAIN)], [(0, ⟨1, 0⟩, 0)], [(-1, EINTR), (-1, 12)]⟩, []) 0 =
      Run.returned (-1) 12
        (w1, [Call.mq_timedreceive 3 64 zero_timeout (-1) EAGAIN,
            Call.clock_gettime CLOCK_MONOTONIC 0 ⟨1, 0⟩ 0,
            Call.poll ⟨3, POLLIN, 0⟩ 1000 (-1) EINTR] ++
          [Call.poll ⟨3, POLLIN, 0⟩ 1000 (-1) 12])) :=
  ⟨(hard_error_returns_at_once mq_sys .receive 1 ⟨3, [], 8, false, 0⟩ (some ⟨200, 0⟩)
      fixture_world 0 [] [] (Call.mq_timedreceive 3 8 zero_timeout (-1) EMSGSIZE)
      (by decide) (by decide)).2,
   (hard_error_returns_at_once script_sys .send 1 ⟨3, [], 0, false, 0⟩ (some ⟨2, 0⟩)
      ⟨[(-1, EAGAIN)], [(-1, ⟨0, 0⟩, EINVAL)], []⟩ 0
      [Call.mq_timedsend 3 0 0 zero_timeout (-1) EAGAIN] []
      (Call.clock_gettime CLOCK_MONOTONIC (-1) ⟨0, 0⟩ EINVAL) (by decide) (by decide)).2,
   (hard_error_returns_at_once script_sys .receive 3 ⟨3, [], 64, false, 0⟩ (some ⟨2, 0⟩)
      ⟨[(-1, EAGAIN)], [(0, ⟨1, 0⟩, 0)], [(-1, EINTR), (-1, 12)]⟩ 0
      [Call.mq_timedreceive 3 64 zero_timeout (-1) EAGAIN,
        Call.clock_gettime CLOCK_MONOTONIC 0 ⟨1, 0⟩ 0,
        Call.poll ⟨3, POLLIN, 0⟩ 1000 (-1) EINTR] []
      (Call.poll ⟨3, POLLIN, 0⟩ 1000 (-1) 12) (by decide) (by decide)).2⟩

/-! ## Round trip over the queue model -/

theorem mq_insert_front (m : Nat × List Char) (l : List (Nat × List Char))
    (h : ∀ x ∈ l, x.1 < m.1) : mq_insert m l = m :: l := by
  cases l with
  | nil => rfl
  | cons x xs =>
    have hx : x.1 < m.1 := h x (List.mem_cons_self x xs)
    simp [mq_insert, hx]

/-- C10, as stated, fails on the queue model in three ways, each with a
message that fits, a valid deadline and a queue with free space.
(1) On `pending_world` the send of `"hello"` returns 0, but the following
receive returns 3 and puts `"old"` into the buffer: the message that was
already pending; `"hello"` stays queued.
(2) With a priority of 40000 (`≥ MQ_PRIO_MAX`) the send on the empty fixture
queue fails with `EINVAL`.
(3) After a successful send on the empty fixture queue, a receive into a
32-byte buffer (smaller than the queue's message size, 64) fails with
`EMSGSIZE` and the message stays queued. -/
theorem round_trip_fails_as_stated :
    (pending_world.msgs.length < pending_world.mq_maxmsg ∧
      ("hello".toList).length ≤ pending_world.mq_msgsize ∧
      (mq_timedsend_monotonic mq_sys 1 3 "hello".toList 5 0 (some ⟨102, 0⟩)
        pending_world 0).ret? = some 0 ∧
      (mq_timedreceive_monotonic mq_sys 1 3 64 false (some ⟨102, 0⟩)
        (mq_timedsend_monotonic mq_sys 1 3 "hello".toList 5 0 (some ⟨102, 0⟩)
          pending_world 0).world 0).ret? = some 3 ∧
      (mq_timedreceive_monotonic mq_sys 1 3 64 false (some ⟨102, 0⟩)
        (mq_timedsend_monotonic mq_sys 1 3 "hello".toList 5 0 (some ⟨102, 0⟩)
          pending_world 0).world 0).world.buf.take 3 = "old".toList ∧
      (mq_timedreceive_monotonic mq_sys 1 3 64 false (some ⟨102, 0⟩)
        (mq_timedsend_monotonic mq_sys 1 3 "hello".toList 5 0 (some ⟨102, 0⟩)
          pending_world 0).world 0).world.msgs = [(0, "hello".toList)]) ∧
    (mq_timedsend_monotonic mq_sys 1 3 "hello".toList 5 40000 (some ⟨102, 0⟩)
        fixture_world 0 = Run.returned (-1) EINVAL fixture_world) ∧
    ((mq_timedsend_monotonic mq_sys 1 3 "hello".toList 5 0 (some ⟨102, 0⟩)
        fixture_world 0).ret? = some 0 ∧
      mq_timedreceive_monotonic mq_sys 1 3 32 false (some ⟨102, 0⟩)
        (mq_timedsend_monotonic mq_sys 1 3 "hello".toList 5 0 (some ⟨102, 0⟩)
          fixture_world 0).world 0 =
        Run.returned (-1) EMSGSIZE { fixture_world with msgs := [(0, "hello".toList)] }) := by
  decide

/-- C10 (amended): over the queue model, for every message that fits the
queue's message size and is sent with a valid priority, every valid deadline
and a queue with free space in which every pending message has a lower
priority than the sent one (in particular an empty queue),
`mq_timedsend_monotonic` returns 0 and queues the message, and a following
`mq_timedreceive_monotonic` on the same queue, into a buffer no smaller than
the queue's message size, returns the length of that message, leaves the
payload unchanged at the start of the buffer, and leaves the queue with the
messages it had before the send. -/
theorem send_then_receive_round_trip (w : mq_world) (msg : List Char) (prio : Nat)
    (d1 d2 : timespec) (f1 f2 : Nat) (len : Nat) (prio_ptr : Bool) (e1 e2 : Int)
    (hd1 : is_timetout_valid (some d1) = true) (hd2 : is_timetout_valid (some d2) = true)
    (hfit : msg.length ≤ w.mq_msgsize) (hprio : prio < MQ_PRIO_MAX)
    (hfree : w.msgs.length < w.mq_maxmsg)
    (hfirst : ∀ m ∈ w.msgs, m.1 < prio)
    (hbuf : w.mq_msgsize ≤ len) :
    mq_timedsend_monotonic mq_sys (f1 + 1) w.mqd msg msg.length prio (some d1) w e1
      = Run.returned 0 0 { w with msgs := (prio, msg) :: w.msgs } ∧
    mq_timedreceive_monotonic mq_sys (f2 + 1) w.mqd len prio_ptr (some d2)
        { w with msgs := (prio, msg) :: w.msgs } e2
      = Run.returned msg.length 0
          { w with buf := msg ++ w.buf.drop msg.length,
                   prio := if prio_ptr then prio else w.prio } ∧
    (msg ++ w.buf.drop msg.length).take msg.length = msg := by
  refine ⟨?_, ?_, ?_⟩
  · have h1 : ¬ (msg.length > w.mq_msgsize) := by omega
    have h2 : ¬ (prio ≥ MQ_PRIO_MAX) := by omega
    simp only [mq_timedsend_monotonic, hd1, Bool.not_true, Bool.false_eq_true, if_false,
      mq_timedsend_loop, mq_sys, mq_model_send, ne_eq, not_true_eq_false, if_neg h1, if_neg h2,
      if_pos hfree, List.take_length, ge_iff_le, le_refl, if_true,
      mq_insert_front (prio, msg) w.msgs hfirst]
    rfl
  · have h1 : ¬ (len < w.mq_msgsize) := by omega
    simp only [mq_timedreceive_monotonic, hd2, Bool.not_true, Bool.false_eq_true, if_false,
      mq_timedreceive_loop, mq_sys, mq_model_receive, ne_eq, not_true_eq_false, if_neg h1,
      ge_iff_le, Nat.cast_nonneg, if_true]
  · simp

/-- The test `send_and_receive`: `"hello monotonic"` on the fixture queue
(capacity 1, empty) with the deadline 2 s ahead of the clock, through
`send_then_receive_round_trip`. -/
theorem send_then_receive_round_trip_witness :
    mq_timedsend_monotonic mq_sys 1 3 hello_msg 16 0 (some ⟨102, 0⟩) fixture_world 0
      = Run.returned 0 0 { fixture_world with msgs := [(0, hello_msg)] } ∧
    mq_timedreceive_monotonic mq_sys 1 3 64 false (some ⟨102, 0⟩)
        { fixture_world with msgs := [(0, hello_msg)] } 0
      = Run.returned 16 0
          { fixture_world with buf := hello_msg ++ List.replicate 48 (Char.ofNat 0) } :=
  ⟨(send_then_receive_round_trip fixture_world hello_msg 0 ⟨102, 0⟩ ⟨102, 0⟩ 0 0 64 false 0 0
      (by decide) (by decide) (by decide) (by decide) (by decide) (by decide) (by decide)).1,
   (send_then_receive_round_trip fixture_world hello_msg 0 ⟨102, 0⟩ ⟨102, 0⟩ 0 0 64 false 0 0
      (by decide) (by decide) (by decide) (by decide) (by decide) (by decide) (by decide)).2.1⟩

/-! ## More on the delta calculator -/

/-- The result of `calculate_delta_time_ms` is a valid non-negative `int`,
whatever the inputs. -/
theorem delta_ms_bounds (d n : timespec) :
    0 ≤ calculate_delta_time_ms d n ∧ calculate_delta_time_ms d n ≤ 2147483647 := by
  unfold calculate_delta_time_ms
  simp only [INT_MAX]
  split_ifs <;>
    first
    | exact ⟨le_refl _, by decide⟩
    | (constructor <;> decide)
    | (rw [wrap32_of_range _ (by omega) (by omega)]; constructor <;> omega)

/-- C15: rounding is downward. For a well-formed deadline and a well-formed
current time with deadline `≥` now, the computed budget in milliseconds, turned
back into nanoseconds, never exceeds the true distance; and a deadline more
than 0 and less than one millisecond away gives 0. -/
theorem calculate_delta_time_ms_rounds_down (deadline now : timespec)
    (hd : is_timetout_valid (some deadline) = true)
    (hn : is_timetout_valid (some now) = true)
    (hle : timespec.le now deadline) :
    calculate_delta_time_ms deadline now * 1000000 ≤
      (deadline.tv_sec - now.tv_sec) * 1000000000 + (deadline.tv_nsec - now.tv_nsec) ∧
    (0 < (deadline.tv_sec - now.tv_sec) * 1000000000 + (deadline.tv_nsec - now.tv_nsec) →
      (deadline.tv_sec - now.tv_sec) * 1000000000 + (deadline.tv_nsec - now.tv_nsec) < 1000000 →
      calculate_delta_time_ms deadline now = 0) := by
  rw [is_timetout_valid_some] at hd hn
  have hb := delta_ms_bounds deadline now
  by_cases hfit : true_delta_ns deadline now / 1000000 ≤ LLONG_MAX
  · have h := calculate_delta_time_ms_no_overflow deadline now hd.2 hn.2 hle hfit
    unfold true_delta_ns INT_MAX at h
    constructor
    · rw [h]
      rcases min_choice (((deadline.tv_sec - now.tv_sec) * 1000000000
          + (deadline.tv_nsec - now.tv_nsec)) / 1000000) 2147483647 with h1 | h1
      · rw [h1]; omega
      · have h2 : (2147483647 : Int) ≤ ((deadline.tv_sec - now.tv_sec) * 1000000000
            + (deadline.tv_nsec - now.tv_nsec)) / 1000000 := by
          rw [← h1]; exact min_le_left _ _
        rw [h1]; omega
    · intro h0 h1
      rw [h]
      have h2 : ((deadline.tv_sec - now.tv_sec) * 1000000000
          + (deadline.tv_nsec - now.tv_nsec)) / 1000000 = 0 := by omega
      rw [h2]; decide
  · unfold true_delta_ns LLONG_MAX at hfit
    constructor
    · omega
    · intro h0 h1
      omega

/-- A deadline 1.5 ms ahead gives a budget of 1 ms, and one 0.999999 ms ahead
gives 0, through `calculate_delta_time_ms_rounds_down`. -/
theorem calculate_delta_time_ms_rounds_down_witness :
    calculate_delta_time_ms ⟨10, 1500000⟩ ⟨10, 0⟩ * 1000000 ≤
      (10 - 10) * 1000000000 + (1500000 - 0) ∧
    calculate_delta_time_ms ⟨10, 1500000⟩ ⟨10, 0⟩ = 1 ∧
    calculate_delta_time_ms ⟨11, 999⟩ ⟨10, 999001000⟩ = 0 :=
  ⟨(calculate_delta_time_ms_rounds_down ⟨10, 1500000⟩ ⟨10, 0⟩
      (by decide) (by decide) (by decide)).1,
   by decide,
   (calculate_delta_time_ms_rounds_down ⟨11, 999⟩ ⟨10, 999001000⟩
      (by decide) (by decide) (by decide)).2 (by decide) (by decide)⟩

/-! ## What the log of an execution looks like -/

/-- The log of every bounded execution with a valid deadline is accepted by
the control points. -/
theorem timed_op_log_accepted {σ : Type} (S : Sys σ) (op : Op) (fuel : Nat) (a : Args)
    (ts : timespec) (w : σ) (e : Int) (hv : is_timetout_valid (some ts) = true) :
    ∃ st, Ctrl.run op a ts .at_probe
      (timed_op (traced S) op fuel a (some ts) (w, []) e).log = some st := by
  have h := timed_op_conforms S op fuel a ts w e hv
  cases hrun : timed_op (traced S) op fuel a (some ts) (w, []) e with
  | out_of_fuel e1 w1 =>
    rw [hrun] at h
    obtain ⟨st, hst, _⟩ := h
    exact ⟨st, hst⟩
  | returned r e1 w1 =>
    rw [hrun] at h
    exact ⟨_, h⟩

/-- With an invalid or absent deadline the log stays empty. -/
theorem timed_op_log_of_invalid {σ : Type} (S : Sys σ) (op : Op) (fuel : Nat) (a : Args)
    (abs_timeout : Option timespec) (w : σ) (e : Int)
    (hv : is_timetout_valid abs_timeout = false) :
    (timed_op (traced S) op fuel a abs_timeout (w, []) e).log = [] := by
  rw [timed_op_of_invalid _ _ _ _ _ _ _ hv]
  rfl

theorem Ctrl.step_sound (op : Op) (a : Args) (ts : timespec) (s s1 : Ctrl) (c : Call)
    (hs : Ctrl.sound ts s) (h : Ctrl.step op a ts s c = some s1) : Ctrl.sound ts s1 := by
  cases s with
  | at_probe =>
    simp only [Ctrl.step] at h
    split_ifs at h
    simp only [Option.some.injEq] at h
    rw [← h]
    simp only [Ctrl.after_probe]
    split_ifs <;> trivial
  | at_clock =>
    cases c with
    | clock_gettime clk rc t e =>
      simp only [Ctrl.step] at h
      split_ifs at h
      simp only [Option.some.injEq] at h
      rw [← h]
      simp only [Ctrl.after_clock]
      split_ifs with h1 h2
      · trivial
      · trivial
      · exact ⟨fun h3 => h2 h3.symm, t, rfl⟩
    | mq_timedreceive _ _ _ _ _ => simp [Ctrl.step] at h
    | mq_timedsend _ _ _ _ _ _ => simp [Ctrl.step] at h
    | poll _ _ _ _ => simp [Ctrl.step] at h
  | at_poll d =>
    cases c with
    | poll fds timeout rc e =>
      simp only [Ctrl.step] at h
      split_ifs at h
      simp only [Option.some.injEq] at h
      rw [← h]
      simp only [Ctrl.after_poll]
      split_ifs
      · exact hs
      · trivial
      · trivial
      · trivial
    | mq_timedreceive _ _ _ _ _ => simp [Ctrl.step] at h
    | mq_timedsend _ _ _ _ _ _ => simp [Ctrl.step] at h
    | clock_gettime _ _ _ _ => simp [Ctrl.step] at h
  | done r e => simp [Ctrl.step] at h

/-- A `poll` is accepted only at the control point `at_poll` with its own
timeout, on the descriptor and the readiness direction of the operation. -/
theorem Ctrl.step_poll_inv (op : Op) (a : Args) (ts : timespec) (s s1 : Ctrl)
    (fds : pollfd) (d rc e : Int)
    (h : Ctrl.step op a ts s (Call.poll fds d rc e) = some s1) :
    s = .at_poll d ∧ fds.fd = wrap32 a.mqdes ∧ fds.events = op.events ∧
      s1 = Ctrl.after_poll d rc e := by
  cases s with
  | at_probe =>
    simp only [Ctrl.step] at h
    split_ifs at h with h0
    cases op <;> simp [probe_call] at h0
  | at_clock => simp [Ctrl.step] at h
  | at_poll d0 =>
    simp only [Ctrl.step] at h
    split_ifs at h with h0
    simp only [Option.some.injEq] at h
    obtain ⟨h1, h2, h3⟩ := h0
    subst h3
    exact ⟨rfl, h1, h2, h.symm⟩
  | done r e0 => simp [Ctrl.step] at h

theorem Ctrl.run_poll_timeouts (op : Op) (a : Args) (ts : timespec) (l : List Call)
    (s s1 : Ctrl) (hs : Ctrl.sound ts s) (h : Ctrl.run op a ts s l = some s1)
    (fds : pollfd) (d rc e : Int) (hm : Call.poll fds d rc e ∈ l) :
    d ≠ 0 ∧ ∃ t, d = calculate_delta_time_ms ts t := by
  induction l generalizing s with
  | nil => simp at hm
  | cons c cs ih =>
    simp only [Ctrl.run] at h
    cases hst : Ctrl.step op a ts s c with
    | none => rw [hst] at h; simp at h
    | some s2 =>
      rw [hst] at h
      simp only [] at h
      rcases List.mem_cons.mp hm with hc | hc
      · subst hc
        obtain ⟨h1, _, _, _⟩ := Ctrl.step_poll_inv op a ts s s2 fds d rc e hst
        subst h1
        exact hs
      · exact ih s2 (Ctrl.step_sound op a ts s s2 c hs hst) h hc

/-- C17: in every bounded execution of either timed operation, for every
deadline (valid or not) and whatever the clock reports, every timeout passed to
`poll` lies in `[1, INT_MAX]`: never 0 and never negative. -/
theorem poll_timeout_in_range {σ : Type} (S : Sys σ) (op : Op) (fuel : Nat) (a : Args)
    (abs_timeout : Option timespec) (w : σ) (errno : Int)
    (fds : pollfd) (timeout rc e : Int)
    (hcall : Call.poll fds timeout rc e ∈
      (timed_op (traced S) op fuel a abs_timeout (w, []) errno).log) :
    1 ≤ timeout ∧ timeout ≤ INT_MAX := by
  by_cases hv : is_timetout_valid abs_timeout = true
  · cases abs_timeout with
    | none => simp [is_timetout_valid] at hv
    | some ts =>
      obtain ⟨st, hst⟩ := timed_op_log_accepted S op fuel a ts w errno hv
      obtain ⟨h0, t, ht⟩ := Ctrl.run_poll_timeouts op a ts _ .at_probe st trivial hst
        fds timeout rc e hcall
      have hb := delta_ms_bounds ts t
      rw [← ht] at hb
      unfold INT_MAX
      omega
  · have hv1 : is_timetout_valid abs_timeout = false := by simpa using hv
    rw [timed_op_log_of_invalid S op fuel a abs_timeout w errno hv1] at hcall
    simp at hcall

/-- Receive on the empty fixture queue with the deadline 1 s ahead, through
`poll_timeout_in_range`: the one `poll` is issued with 1000 ms. -/
theorem poll_timeout_in_range_witness :
    Call.poll ⟨3, POLLIN, 0⟩ 1000 0 ETIMEDOUT ∈
      (timed_op (traced mq_sys) .receive 2 ⟨3, [], 64, false, 0⟩ (some ⟨101, 0⟩)
        (fixture_world, []) 0).log ∧
    (1 : Int) ≤ 1000 ∧ (1000 : Int) ≤ INT_MAX :=
  ⟨by decide,
    poll_timeout_in_range mq_sys .receive 2 ⟨3, [], 64, false, 0⟩ (some ⟨101, 0⟩)
      fixture_world 0 ⟨3, POLLIN, 0⟩ 1000 0 ETIMEDOUT (by decide)⟩

/-! ## More fuel: the same result, or more calls -/

/-- A wait that returned within a bound returns the same with a larger bound. -/
theorem poll_retry_mono {σ : Type} (S : Sys σ) (fuel : Nat) (fds : pollfd) (d : Int)
    (w : σ) (e : Int) (rc e1 : Int) (w1 : σ)
    (h : poll_retry S fuel fds d w e = .returned rc e1 w1) :
    poll_retry S (fuel + 1) fds d w e = .returned rc e1 w1 := by
  induction fuel generalizing fds w e with
  | zero => simp [poll_retry] at h
  | succ n ih =>
    rw [poll_retry] at h ⊢
    by_cases hc : (S.poll fds d w e).ret < 0 ∧ (S.poll fds d w e).errno = EINTR
    · rw [if_pos hc] at h ⊢
      exact ih _ _ _ h
    · rw [if_neg hc] at h ⊢
      exact h

/-- A loop that returned within a bound returns the same with a larger bound. -/
theorem driver_loop_mono {σ : Type} (S : Sys σ) (prb : σ → Int → SysRet σ)
    (narrow : Int → Int) (events mqdes : Int) (ts : timespec) (fuel : Nat) (w : σ) (e : Int)
    (r e1 : Int) (w1 : σ)
    (h : driver_loop S prb narrow events mqdes ts fuel w e = .returned r e1 w1) :
    driver_loop S prb narrow events mqdes ts (fuel + 1) w e = .returned r e1 w1 := by
  induction fuel generalizing w e with
  | zero => simp [driver_loop] at h
  | succ n ih =>
    rw [driver_loop] at h ⊢
    generalize prb w 0 = p at h ⊢
    by_cases h1 : p.ret ≥ 0
    · rw [if_pos h1] at h ⊢; exact h
    · rw [if_neg h1] at h ⊢
      by_cases h2 : p.errno ≠ ETIMEDOUT ∧ p.errno ≠ EAGAIN
      · rw [if_pos h2] at h ⊢; exact h
      · rw [if_neg h2] at h ⊢
        generalize S.clock_gettime CLOCK_MONOTONIC p.world p.errno = c at h ⊢
        by_cases h3 : c.ret ≠ 0
        · rw [if_pos h3] at h ⊢; exact h
        · rw [if_neg h3] at h ⊢
          by_cases h4 : 0 = calculate_delta_time_ms ts c.time
          · rw [if_pos h4] at h ⊢; exact h
          · rw [if_neg h4] at h ⊢
            cases hp : poll_retry S n ⟨wrap32 mqdes, events, 0⟩
                (calculate_delta_time_ms ts c.time) c.world c.errno with
            | out_of_fuel e3 w3 => rw [hp] at h; simp at h
            | returned rc e3 w3 =>
              rw [hp] at h
              rw [poll_retry_mono S n _ _ _ _ rc e3 w3 hp]
              simp only [] at h ⊢
              by_cases h5 : rc < 0
              · rw [if_pos h5] at h ⊢; exact h
              · rw [if_neg h5] at h ⊢
                by_cases h6 : rc = 0
                · rw [if_pos h6] at h ⊢; exact h
                · rw [if_neg h6] at h ⊢
                  exact ih _ _ h

/-- The log of a wait only grows. -/
theorem poll_retry_log_grows {σ : Type} (S : Sys σ) (fuel : Nat) (fds : pollfd) (d : Int)
    (w : σ) (log : List Call) (e : Int) :
    ∃ suf, (poll_retry (traced S) fuel fds d (w, log) e).world.2 = log ++ suf := by
  induction fuel generalizing fds w log e with
  | zero => exact ⟨[], by simp [poll_retry, Run.world]⟩
  | succ n ih =>
    simp only [poll_retry, traced_poll]
    by_cases hc : (S.poll fds d w e).ret < 0 ∧ (S.poll fds d w e).errno = EINTR
    · rw [if_pos hc]
      obtain ⟨suf, hs⟩ := ih { fds with revents := (S.poll fds d w e).revents }
        (S.poll fds d w e).world
        (log ++ [Call.poll fds d (S.poll fds d w e).ret (S.poll fds d w e).errno])
        (S.poll fds d w e).errno
      exact ⟨Call.poll fds d (S.poll fds d w e).ret (S.poll fds d w e).errno :: suf,
        by rw [hs]; simp⟩
    · rw [if_neg hc]
      exact ⟨[_], rfl⟩

/-- A wait that reached its bound issues one more `poll` when the bound is
raised by one, after the calls it had already issued. -/
theorem poll_retry_progress {σ : Type} (S : Sys σ) (fuel : Nat) (fds : pollfd) (d : Int)
    (w : σ) (log : List Call) (e : Int) (e1 : Int) (w1 : σ × List Call)
    (h : poll_retry (traced S) fuel fds d (w, log) e = .out_of_fuel e1 w1) :
    ∃ c rest, (poll_retry (traced S) (fuel + 1) fds d (w, log) e).world.2
      = w1.2 ++ c :: rest := by
  induction fuel generalizing fds w log e with
  | zero =>
    simp only [poll_retry, Run.out_of_fuel.injEq] at h
    obtain ⟨_, h2⟩ := h
    subst h2
    simp only [poll_retry, traced_poll]
    split_ifs
    · exact ⟨_, [], rfl⟩
    · exact ⟨_, [], rfl⟩
  | succ n ih =>
    rw [poll_retry] at h ⊢
    simp only [traced_poll] at h ⊢
    by_cases hc : (S.poll fds d w e).ret < 0 ∧ (S.poll fds d w e).errno = EINTR
    · rw [if_pos hc] at h ⊢
      exact ih _ _ _ _ h
    · rw [if_neg hc] at h
      simp at h

/-- The log of a loop only grows. -/
theorem driver_loop_log_grows {σ : Type} (S : Sys σ) (op : Op) (a : Args) (ts : timespec)
    (fuel : Nat) (w : σ) (log : List Call) (e : Int) :
    ∃ suf, (driver_loop (traced S) (probe (traced S) op a) op.narrow op.events a.mqdes ts
      fuel (w, log) e).world.2 = log ++ suf := by
  induction fuel generalizing w log e with
  | zero => exact ⟨[], by simp [driver_loop, Run.world]⟩
  | succ n ih =>
    simp only [driver_loop, probe_traced, traced_clock_gettime]
    generalize probe S op a w 0 = r
    by_cases h1 : r.ret ≥ 0
    · rw [if_pos h1]; exact ⟨[probe_call op a r.ret r.errno], rfl⟩
    · rw [if_neg h1]
      by_cases h2 : r.errno ≠ ETIMEDOUT ∧ r.errno ≠ EAGAIN
      · rw [if_pos h2]; exact ⟨[probe_call op a r.ret r.errno], rfl⟩
      · rw [if_neg h2]
        generalize S.clock_gettime CLOCK_MONOTONIC r.world r.errno = c
        by_cases h3 : c.ret ≠ 0
        · rw [if_pos h3]
          exact ⟨[probe_call op a r.ret r.errno,
            Call.clock_gettime CLOCK_MONOTONIC c.ret c.time c.errno], by simp [Run.world]⟩
        · rw [if_neg h3]
          by_cases h4 : 0 = calculate_delta_time_ms ts c.time
          · rw [if_pos h4]
            exact ⟨[probe_call op a r.ret r.errno,
              Call.clock_gettime CLOCK_MONOTONIC c.ret c.time c.errno], by simp [Run.world]⟩
          · rw [if_neg h4]
            obtain ⟨suf, hs⟩ := poll_retry_log_grows S n ⟨wrap32 a.mqdes, op.events, 0⟩
              (calculate_delta_time_ms ts c.time) c.world
              (log ++ [probe_call op a r.ret r.errno] ++
                [Call.clock_gettime CLOCK_MONOTONIC c.ret c.time c.errno]) c.errno
            cases hp : poll_retry (traced S) n ⟨wrap32 a.mqdes, op.events, 0⟩
                (calculate_delta_time_ms ts c.time)
                (c.world, log ++ [probe_call op a r.ret r.errno] ++
                  [Call.clock_gettime CLOCK_MONOTONIC c.ret c.time c.errno]) c.errno with
            | out_of_fuel e3 w3 =>
              rw [hp] at hs
              simp only [Run.world] at hs
              exact ⟨_, by show w3.2 = _; rw [hs, List.append_assoc, List.append_assoc]⟩
            | returned rc e3 w3 =>
              rw [hp] at hs
              simp only [Run.world] at hs
              have hs1 : ∃ m, w3.2 = log ++ m :=
                ⟨_, by rw [hs, List.append_assoc, List.append_assoc]⟩
              simp only []
              by_cases h5 : rc < 0
              · rw [if_pos h5]; exact hs1
              · rw [if_neg h5]
                by_cases h6 : rc = 0
                · rw [if_pos h6]; exact hs1
                · rw [if_neg h6]
                  obtain ⟨m, hm⟩ := hs1
                  obtain ⟨suf2, hs2⟩ := ih w3.1 w3.2 e3
                  exact ⟨m ++ suf2, hs2.trans (by rw [hm, List.append_assoc])⟩

/-- The first call of a loop body is the probe. -/
theorem driver_loop_first_call {σ : Type} (S : Sys σ) (op : Op) (a : Args) (ts : timespec)
    (fuel : Nat) (w : σ) (log : List Call) (e : Int) :
    ∃ rest, (driver_loop (traced S) (probe (traced S) op a) op.narrow op.events a.mqdes ts
      (fuel + 1) (w, log) e).world.2
      = log ++ probe_call op a (probe S op a w 0).ret (probe S op a w 0).errno :: rest := by
  simp only [driver_loop, probe_traced, traced_clock_gettime]
  generalize probe S op a w 0 = r
  by_cases h1 : r.ret ≥ 0
  · rw [if_pos h1]; exact ⟨[], rfl⟩
  · rw [if_neg h1]
    by_cases h2 : r.errno ≠ ETIMEDOUT ∧ r.errno ≠ EAGAIN
    · rw [if_pos h2]; exact ⟨[], rfl⟩
    · rw [if_neg h2]
      generalize S.clock_gettime CLOCK_MONOTONIC r.world r.errno = c
      by_cases h3 : c.ret ≠ 0
      · rw [if_pos h3]
        exact ⟨[Call.clock_gettime CLOCK_MONOTONIC c.ret c.time c.errno], by simp [Run.world]⟩
      · rw [if_neg h3]
        by_cases h4 : 0 = calculate_delta_time_ms ts c.time
        · rw [if_pos h4]
          exact ⟨[Call.clock_gettime CLOCK_MONOTONIC c.ret c.time c.errno],
            by simp [Run.world]⟩
        · rw [if_neg h4]
          obtain ⟨suf, hs⟩ := poll_retry_log_grows S fuel ⟨wrap32 a.mqdes, op.events, 0⟩
            (calculate_delta_time_ms ts c.time) c.world
            (log ++ [probe_call op a r.ret r.errno] ++
              [Call.clock_gettime CLOCK_MONOTONIC c.ret c.time c.errno]) c.errno
          cases hp : poll_retry (traced S) fuel ⟨wrap32 a.mqdes, op.events, 0⟩
              (calculate_delta_time_ms ts c.time)
              (c.world, log ++ [probe_call op a r.ret r.errno] ++
                [Call.clock_gettime CLOCK_MONOTONIC c.ret c.time c.errno]) c.errno with
          | out_of_fuel e3 w3 =>
            rw [hp] at hs
            simp only [Run.world] at hs
            exact ⟨_, by show w3.2 = _; rw [hs, List.append_assoc, List.append_assoc]; rfl⟩
          | returned rc e3 w3 =>
            rw [hp] at hs
            simp only [Run.world] at hs
            have hs1 : ∃ m, w3.2 = log ++ probe_call op a r.ret r.errno :: m :=
              ⟨_, by rw [hs, List.append_assoc, List.append_assoc]; rfl⟩
            simp only []
            by_cases h5 : rc < 0
            · rw [if_pos h5]; exact hs1
            · rw [if_neg h5]
              by_cases h6 : rc = 0
              · rw [if_pos h6]; exact hs1
              · rw [if_neg h6]
                obtain ⟨m, hm⟩ := hs1
                obtain ⟨suf2, hs2⟩ := driver_loop_log_grows S op a ts fuel w3.1 w3.2 e3
                exact ⟨m ++ suf2, hs2.trans (by rw [hm]; simp)⟩

/-- A loop that reached its bound issues at least one more call when the
bound is raised by one, after the calls it had already issued. -/
theorem driver_loop_progress {σ : Type} (S : Sys σ) (op : Op) (a : Args) (ts : timespec)
    (fuel : Nat) (w : σ) (log : List Call) (e : Int) (e1 : Int) (w1 : σ × List Call)
    (h : driver_loop (traced S) (probe (traced S) op a) op.narrow op.events a.mqdes ts
      fuel (w, log) e = .out_of_fuel e1 w1) :
    ∃ c rest, (driver_loop (traced S) (probe (traced S) op a) op.narrow op.events a.mqdes ts
      (fuel + 1) (w, log) e).world.2 = w1.2 ++ c :: rest := by
  induction fuel generalizing w log e with
  | zero =>
    simp only [driver_loop, Run.out_of_fuel.injEq] at h
    obtain ⟨_, h2⟩ := h
    subst h2
    obtain ⟨rest, hr⟩ := driver_loop_first_call S op a ts 0 w log e
    exact ⟨_, rest, hr⟩
  | succ n ih =>
    rw [driver_loop] at h
    rw [driver_loop]
    simp only [probe_traced, traced_clock_gettime] at h ⊢
    generalize probe S op a w 0 = r at h ⊢
    by_cases h1 : r.ret ≥ 0
    · rw [if_pos h1] at h; simp at h
    · rw [if_neg h1] at h ⊢
      by_cases h2 : r.errno ≠ ETIMEDOUT ∧ r.errno ≠ EAGAIN
      · rw [if_pos h2] at h; simp at h
      · rw [if_neg h2] at h ⊢
        generalize S.clock_gettime CLOCK_MONOTONIC r.world r.errno = c at h ⊢
        by_cases h3 : c.ret ≠ 0
        · rw [if_pos h3] at h; simp at h
        · rw [if_neg h3] at h ⊢
          by_cases h4 : 0 = calculate_delta_time_ms ts c.time
          · rw [if_pos h4] at h; simp at h
          · rw [if_neg h4] at h ⊢
            cases hp : poll_retry (traced S) n ⟨wrap32 a.mqdes, op.events, 0⟩
                (calculate_delta_time_ms ts c.time)
                (c.world, log ++ [probe_call op a r.ret r.errno] ++
                  [Call.clock_gettime CLOCK_MONOTONIC c.ret c.time c.errno]) c.errno with
            | out_of_fuel e3 w3 =>
              rw [hp] at h
              simp only [Run.out_of_fuel.injEq] at h
              obtain ⟨_, hw⟩ := h
              subst hw
              obtain ⟨c1, rest, hpr⟩ := poll_retry_progress S n _ _ _ _ _ e3 w3 hp
              cases hp1 : poll_retry (traced S) (n + 1) ⟨wrap32 a.mqdes, op.events, 0⟩
                  (calculate_delta_time_ms ts c.time)
                  (c.world, log ++ [probe_call op a r.ret r.errno] ++
                    [Call.clock_gettime CLOCK_MONOTONIC c.ret c.time c.errno]) c.errno with
              | out_of_fuel e4 w4 =>
                rw [hp1] at hpr
                exact ⟨c1, rest, hpr⟩
              | returned rc e4 w4 =>
                rw [hp1] at hpr
                simp only [Run.world] at hpr
                simp only []
                by_cases h5 : rc < 0
                · rw [if_pos h5]; exact ⟨c1, rest, hpr⟩
                · rw [if_neg h5]
                  by_cases h6 : rc = 0
                  · rw [if_pos h6]; exact ⟨c1, rest, hpr⟩
                  · rw [if_neg h6]
                    obtain ⟨suf2, hs2⟩ := driver_loop_log_grows S op a ts (n + 1) w4.1 w4.2 e4
                    exact ⟨c1, rest ++ suf2, hs2.trans (by rw [hpr]; simp)⟩
            | returned rc e3 w3 =>
              rw [hp] at h
              rw [poll_retry_mono (traced S) n _ _ _ _ rc e3 w3 hp]
              simp only [] at h ⊢
              by_cases h5 : rc < 0
              · rw [if_pos h5] at h; simp at h
              · rw [if_neg h5] at h ⊢
                by_cases h6 : rc = 0
                · rw [if_pos h6] at h; simp at h
                · rw [if_neg h6] at h ⊢
                  exact ih w3.1 w3.2 e3 h

/-- More fuel does not change an execution that returned. -/
theorem timed_op_mono {σ : Type} (S : Sys σ) (op : Op) (fuel : Nat) (a : Args)
    (abs_timeout : Option timespec) (w : σ) (e : Int) (r e1 : Int) (w1 : σ)
    (h : timed_op S op fuel a abs_timeout w e = .returned r e1 w1) :
    timed_op S op (fuel + 1) a abs_timeout w e = .returned r e1 w1 := by
  by_cases hv : is_timetout_valid abs_timeout = true
  · cases abs_timeout with
    | none => simp [is_timetout_valid] at hv
    | some ts =>
      rw [timed_op_of_valid _ _ _ _ _ _ _ hv, timed_loop_eq_driver_loop] at h ⊢
      exact driver_loop_mono S _ _ _ _ _ _ _ _ _ _ _ h
  · have hv1 : is_timetout_valid abs_timeout = false := by simpa using hv
    rw [timed_op_of_invalid _ _ _ _ _ _ _ hv1] at h ⊢
    exact h

/-- An execution that reached its bound issues at least one more call when
the bound is raised by one, after the calls it had already issued. -/
theorem timed_op_progress {σ : Type} (S : Sys σ) (op : Op) (fuel : Nat) (a : Args)
    (abs_timeout : Option timespec) (w : σ) (e : Int) (e1 : Int) (w1 : σ × List Call)
    (h : timed_op (traced S) op fuel a abs_timeout (w, []) e = .out_of_fuel e1 w1) :
    ∃ c rest, (timed_op (traced S) op (fuel + 1) a abs_timeout (w, []) e).log
      = w1.2 ++ c :: rest := by
  by_cases hv : is_timetout_valid abs_timeout = true
  · cases abs_timeout with
    | none => simp [is_timetout_valid] at hv
    | some ts =>
      rw [timed_op_of_valid _ _ _ _ _ _ _ hv, timed_loop_eq_driver_loop] at h ⊢
      exact driver_loop_progress S op a ts fuel w [] e e1 w1 h
  · have hv1 : is_timetout_valid abs_timeout = false := by simpa using hv
    rw [timed_op_of_invalid _ _ _ _ _ _ _ hv1] at h
    simp at h

/-- The log with one more unit of fuel extends the log without it. -/
theorem timed_op_log_extends {σ : Type} (S : Sys σ) (op : Op) (fuel : Nat) (a : Args)
    (abs_timeout : Option timespec) (w : σ) (e : Int) :
    ∃ suf, (timed_op (traced S) op (fuel + 1) a abs_timeout (w, []) e).log
      = (timed_op (traced S) op fuel a abs_timeout (w, []) e).log ++ suf := by
  cases h : timed_op (traced S) op fuel a abs_timeout (w, []) e with
  | out_of_fuel e1 w1 =>
    obtain ⟨c, rest, hp⟩ := timed_op_progress S op fuel a abs_timeout w e e1 w1 h
    exact ⟨c :: rest, hp⟩
  | returned r e1 w1 =>
    rw [timed_op_mono (traced S) op fuel a abs_timeout (w, []) e r e1 w1 h]
    exact ⟨[], by simp⟩

/-! ## The call that follows a call -/

theorem Ctrl.run_split (op : Op) (a : Args) (ts : timespec) (st0 st : Ctrl)
    (pre post : List Call) (c : Call)
    (h : Ctrl.run op a ts st0 (pre ++ c :: post) = some st) :
    ∃ s s1, Ctrl.run op a ts st0 pre = some s ∧ Ctrl.step op a ts s c = some s1 ∧
      Ctrl.run op a ts s1 post = some st ∧
      Ctrl.run op a ts st0 (pre ++ [c]) = some s1 := by
  rw [Ctrl.run_append] at h
  cases h1 : Ctrl.run op a ts st0 pre with
  | none => rw [h1] at h; simp at h
  | some s =>
    rw [h1] at h
    simp only [Option.bind, Ctrl.run] at h
    cases h2 : Ctrl.step op a ts s c with
    | none => rw [h2] at h; simp at h
    | some s1 =>
      rw [h2] at h
      exact ⟨s, s1, rfl, h2, h, Ctrl.run_snoc op a ts st0 s s1 pre c h1 h2⟩

/-- A non-empty log means the deadline was valid. -/
theorem timed_op_valid_of_log {σ : Type} (S : Sys σ) (op : Op) (fuel : Nat) (a : Args)
    (abs_timeout : Option timespec) (w : σ) (e : Int) (c : Call) (pre post : List Call)
    (hlog : (timed_op (traced S) op fuel a abs_timeout (w, []) e).log = pre ++ c :: post) :
    ∃ ts, abs_timeout = some ts ∧ is_timetout_valid (some ts) = true := by
  by_cases hv : is_timetout_valid abs_timeout = true
  · cases abs_timeout with
    | none => simp [is_timetout_valid] at hv
    | some ts => exact ⟨ts, rfl, hv⟩
  · have hv1 : is_timetout_valid abs_timeout = false := by simpa using hv
    rw [timed_op_log_of_invalid S op fuel a abs_timeout w e hv1] at hlog
    simp at hlog

/-- If the calls logged so far lead to a control point that is not `done`,
then with one more unit of fuel a further call is logged right after them, and
it is one the control point accepts; and if they are the whole log, the
execution has not returned. -/
theorem timed_op_next_call {σ : Type} (S : Sys σ) (op : Op) (fuel : Nat) (a : Args)
    (ts : timespec) (w : σ) (e : Int) (hv : is_timetout_valid (some ts) = true)
    (pre post : List Call) (s : Ctrl)
    (hlog : (timed_op (traced S) op fuel a (some ts) (w, []) e).log = pre ++ post)
    (hs : Ctrl.run op a ts .at_probe pre = some s) (hnd : s.is_done = false) :
    (post = [] → ∃ e1 w1, timed_op (traced S) op fuel a (some ts) (w, []) e
      = Run.out_of_fuel e1 w1) ∧
    ∃ c rest s1, (timed_op (traced S) op (fuel + 1) a (some ts) (w, []) e).log
      = pre ++ c :: rest ∧ Ctrl.step op a ts s c = some s1 := by
  have hnotret : post = [] → ∃ e1 w1, timed_op (traced S) op fuel a (some ts) (w, []) e
      = Run.out_of_fuel e1 w1 := by
    intro hp
    subst hp
    have hconf := timed_op_conforms S op fuel a ts w e hv
    cases hrun : timed_op (traced S) op fuel a (some ts) (w, []) e with
    | out_of_fuel e1 w1 => exact ⟨e1, w1, rfl⟩
    | returned r e1 w1 =>
      rw [hrun] at hconf hlog
      simp only [Run.log, Run.world, List.append_nil] at hlog
      simp only [] at hconf
      rw [hlog, hs] at hconf
      simp only [Option.some.injEq] at hconf
      rw [hconf] at hnd
      simp [Ctrl.is_done] at hnd
  refine ⟨hnotret, ?_⟩
  obtain ⟨suf, hext⟩ := timed_op_log_extends S op fuel a (some ts) w e
  obtain ⟨st, hacc⟩ := timed_op_log_accepted S op (fuel + 1) a ts w e hv
  cases post with
  | cons c post1 =>
    rw [hlog] at hext
    rw [hext, List.append_assoc, List.cons_append] at hacc
    obtain ⟨s0, s1, h0, h1, _, _⟩ := Ctrl.run_split op a ts _ _ _ _ _ hacc
    rw [hs] at h0
    cases h0
    exact ⟨c, post1 ++ suf, s1, by rw [hext]; simp, h1⟩
  | nil =>
    obtain ⟨e1, w1, hrun⟩ := hnotret rfl
    obtain ⟨c, rest, hp⟩ := timed_op_progress S op fuel a (some ts) w e e1 w1 hrun
    rw [hrun] at hlog
    simp only [Run.log, Run.world, List.append_nil] at hlog
    rw [hlog] at hp
    rw [hp] at hacc
    obtain ⟨s0, s1, h0, h1, _, _⟩ := Ctrl.run_split op a ts _ _ _ _ _ hacc
    rw [hs] at h0
    cases h0
    exact ⟨c, rest, s1, hp, h1⟩

/-- The control point reached just after a logged call. -/
theorem timed_op_state_after {σ : Type} (S : Sys σ) (op : Op) (fuel : Nat) (a : Args)
    (ts : timespec) (w : σ) (e : Int) (hv : is_timetout_valid (some ts) = true)
    (pre post : List Call) (c : Call)
    (hlog : (timed_op (traced S) op fuel a (some ts) (w, []) e).log = pre ++ c :: post) :
    ∃ s s1, Ctrl.step op a ts s c = some s1 ∧
      Ctrl.run op a ts .at_probe (pre ++ [c]) = some s1 := by
  obtain ⟨st, hacc⟩ := timed_op_log_accepted S op fuel a ts w e hv
  rw [hlog] at hacc
  obtain ⟨s, s1, _, h1, _, h3⟩ := Ctrl.run_split op a ts _ _ _ _ _ hacc
  exact ⟨s, s1, h1, h3⟩

theorem Ctrl.step_at_probe_inv (op : Op) (a : Args) (ts : timespec) (c : Call) (s1 : Ctrl)
    (h : Ctrl.step op a ts .at_probe c = some s1) :
    c = probe_call op a c.ret c.errno_after ∧ s1 = Ctrl.after_probe op c.ret c.errno_after := by
  simp only [Ctrl.step] at h
  split_ifs at h with h0
  simp only [Option.some.injEq] at h
  exact ⟨h0, h.symm⟩

theorem Ctrl.step_at_clock_inv (op : Op) (a : Args) (ts : timespec) (c : Call) (s1 : Ctrl)
    (h : Ctrl.step op a ts .at_clock c = some s1) :
    ∃ rc t e, c = Call.clock_gettime CLOCK_MONOTONIC rc t e ∧
      s1 = Ctrl.after_clock ts rc t e := by
  cases c with
  | clock_gettime clk rc t e =>
    simp only [Ctrl.step] at h
    split_ifs at h with h0
    simp only [Option.some.injEq] at h
    subst h0
    exact ⟨rc, t, e, rfl, h.symm⟩
  | mq_timedreceive _ _ _ _ _ => simp [Ctrl.step] at h
  | mq_timedsend _ _ _ _ _ _ => simp [Ctrl.step] at h
  | poll _ _ _ _ => simp [Ctrl.step] at h

theorem Ctrl.step_at_poll_inv (op : Op) (a : Args) (ts : timespec) (d : Int) (c : Call)
    (s1 : Ctrl) (h : Ctrl.step op a ts (.at_poll d) c = some s1) :
    ∃ fds rc e, c = Call.poll fds d rc e ∧ fds.fd = wrap32 a.mqdes ∧
      fds.events = op.events ∧ s1 = Ctrl.after_poll d rc e := by
  cases c with
  | poll fds timeout rc e =>
    obtain ⟨h1, h2, h3, h4⟩ := Ctrl.step_poll_inv op a ts _ _ fds timeout rc e h
    cases h1
    exact ⟨fds, rc, e, rfl, h2, h3, h4⟩
  | mq_timedreceive _ _ _ _ _ => simp [Ctrl.step] at h
  | mq_timedsend _ _ _ _ _ _ => simp [Ctrl.step] at h
  | clock_gettime _ _ _ _ => simp [Ctrl.step] at h

theorem Ctrl.step_probe_call_inv (op : Op) (a : Args) (ts : timespec) (s s1 : Ctrl)
    (r e : Int) (h : Ctrl.step op a ts s (probe_call op a r e) = some s1) :
    s = .at_probe ∧ s1 = Ctrl.after_probe op r e := by
  cases s with
  | at_probe =>
    rw [Ctrl.step_probe_call] at h
    simp only [Option.some.injEq] at h
    exact ⟨rfl, h.symm⟩
  | at_clock => cases op <;> simp [Ctrl.step, probe_call] at h
  | at_poll d => cases op <;> simp [Ctrl.step, probe_call] at h
  | done r0 e0 => simp [Ctrl.step] at h

theorem Ctrl.step_clock_inv (op : Op) (a : Args) (ts : timespec) (s s1 : Ctrl)
    (clk rc : Int) (t : timespec) (e : Int)
    (h : Ctrl.step op a ts s (Call.clock_gettime clk rc t e) = some s1) :
    s = .at_clock ∧ s1 = Ctrl.after_clock ts rc t e := by
  cases s with
  | at_probe =>
    simp only [Ctrl.step] at h
    split_ifs at h with h0
    cases op <;> simp [probe_call] at h0
  | at_clock =>
    simp only [Ctrl.step] at h
    split_ifs at h
    simp only [Option.some.injEq] at h
    exact ⟨rfl, h.symm⟩
  | at_poll d => simp [Ctrl.step] at h
  | done r0 e0 => simp [Ctrl.step] at h

/-! ## The claims about interruptions, readiness and the order of calls -/

/-- C13: in every bounded execution of either timed operation, wherever the
log shows a `poll` that failed with `EINTR`: that call did not make the
operation return (if it is the last call logged, the execution reached its
bound), and with one more loop body the very next call is again a `poll`, on
the same descriptor and direction and with exactly the same timeout; no probe
and no clock read comes in between. -/
theorem eintr_reissues_same_wait {σ : Type} (S : Sys σ) (op : Op) (fuel : Nat) (a : Args)
    (abs_timeout : Option timespec) (w : σ) (errno : Int) (pre post : List Call)
    (fds : pollfd) (timeout rc : Int)
    (hlog : (timed_op (traced S) op fuel a abs_timeout (w, []) errno).log =
      pre ++ Call.poll fds timeout rc EINTR :: post)
    (hrc : rc < 0) :
    (post = [] → ∃ e1 w1, timed_op (traced S) op fuel a abs_timeout (w, []) errno
      = Run.out_of_fuel e1 w1) ∧
    ∃ fds1 rc1 e1 rest,
      (timed_op (traced S) op (fuel + 1) a abs_timeout (w, []) errno).log =
        pre ++ Call.poll fds timeout rc EINTR :: Call.poll fds1 timeout rc1 e1 :: rest ∧
      fds1.fd = fds.fd ∧ fds1.events = fds.events := by
  obtain ⟨ts, hts, hv⟩ := timed_op_valid_of_log S op fuel a abs_timeout w errno _ pre post hlog
  subst hts
  obtain ⟨s, s1, hstep, hrun⟩ := timed_op_state_after S op fuel a ts w errno hv pre post _ hlog
  obtain ⟨hs, hfd, hev, hs1⟩ := Ctrl.step_poll_inv op a ts s s1 fds timeout rc EINTR hstep
  have hs2 : s1 = .at_poll timeout := by
    rw [hs1]; simp [Ctrl.after_poll, hrc]
  subst hs2
  have hlog1 : (timed_op (traced S) op fuel a (some ts) (w, []) errno).log =
      (pre ++ [Call.poll fds timeout rc EINTR]) ++ post := by rw [hlog]; simp
  obtain ⟨hnr, c, rest, s2, hnext, hst⟩ := timed_op_next_call S op fuel a ts w errno hv
    _ post _ hlog1 hrun rfl
  obtain ⟨fds1, rc1, e1, hc, hfd1, hev1, _⟩ := Ctrl.step_at_poll_inv op a ts timeout c s2 hst
  subst hc
  exact ⟨hnr, fds1, rc1, e1, rest, by rw [hnext]; simp, by rw [hfd1, hfd], by rw [hev1, hev]⟩

/-- A receive whose first `poll` is interrupted once and then reports expiry,
through `eintr_reissues_same_wait`: the second `poll` carries the same 1000 ms. -/
theorem eintr_reissues_same_wait_witness :
    ∃ fds1 rc1 e1 rest,
      (timed_op (traced script_sys) .receive (2 + 1) ⟨3, [], 64, false, 0⟩ (some ⟨2, 0⟩)
        (⟨[(-1, EAGAIN)], [(0, ⟨1, 0⟩, 0)], [(-1, EINTR), (0, 0)]⟩, []) 0).log =
        [Call.mq_timedreceive 3 64 zero_timeout (-1) EAGAIN,
          Call.clock_gettime CLOCK_MONOTONIC 0 ⟨1, 0⟩ 0] ++
          Call.poll ⟨3, POLLIN, 0⟩ 1000 (-1) EINTR :: Call.poll fds1 1000 rc1 e1 :: rest ∧
      fds1.fd = 3 ∧ fds1.events = POLLIN :=
  (eintr_reissues_same_wait script_sys .receive 2 ⟨3, [], 64, false, 0⟩ (some ⟨2, 0⟩)
    ⟨[(-1, EAGAIN)], [(0, ⟨1, 0⟩, 0)], [(-1, EINTR), (0, 0)]⟩ 0
    [Call.mq_timedreceive 3 64 zero_timeout (-1) EAGAIN,
      Call.clock_gettime CLOCK_MONOTONIC 0 ⟨1, 0⟩ 0] []
    ⟨3, POLLIN, 0⟩ 1000 (-1) (by decide) (by decide)).2

theorem Ctrl.run_done_last (op : Op) (a : Args) (ts : timespec) (l : List Call)
    (st0 : Ctrl) (r e : Int) (h : Ctrl.run op a ts st0 l = some (.done r e))
    (hnd : st0.is_done = false) :
    ∃ pre c s, l = pre ++ [c] ∧ Ctrl.run op a ts st0 pre = some s ∧
      Ctrl.step op a ts s c = some (.done r e) := by
  induction l generalizing st0 with
  | nil =>
    simp only [Ctrl.run, Option.some.injEq] at h
    rw [h] at hnd
    simp [Ctrl.is_done] at hnd
  | cons c cs ih =>
    simp only [Ctrl.run] at h
    cases hst : Ctrl.step op a ts st0 c with
    | none => rw [hst] at h; simp at h
    | some s1 =>
      rw [hst] at h
      simp only [] at h
      by_cases hd : s1.is_done = true
      · cases s1 with
        | done r1 e1 =>
          obtain ⟨h1, h2⟩ := Ctrl.run_done op a ts r1 e1 cs _ h
          subst h1
          cases h2
          exact ⟨[], c, st0, rfl, rfl, hst⟩
        | at_probe => simp [Ctrl.is_done] at hd
        | at_clock => simp [Ctrl.is_done] at hd
        | at_poll d => simp [Ctrl.is_done] at hd
      · have hd1 : s1.is_done = false := by simpa using hd
        obtain ⟨pre, c1, s, h1, h2, h3⟩ := ih s1 h hd1
        exact ⟨c :: pre, c1, s, by rw [h1]; rfl, by simp [Ctrl.run, hst, h2], h3⟩

/-- A call that ends the operation with a non-negative return value is a
successful probe, and the value returned is the probe's, converted to the
return type of the operation. -/
theorem Ctrl.step_done_nonneg (op : Op) (a : Args) (ts : timespec) (s : Ctrl) (c : Call)
    (r e : Int) (h : Ctrl.step op a ts s c = some (.done r e)) (hr : 0 ≤ r) :
    ∃ r0, c = probe_call op a r0 e ∧ 0 ≤ r0 ∧ r = op.narrow r0 := by
  cases s with
  | at_probe =>
    obtain ⟨h1, h2⟩ := Ctrl.step_at_probe_inv op a ts c _ h
    simp only [Ctrl.after_probe] at h2
    split_ifs at h2 with h3 h4
    · simp only [Ctrl.done.injEq] at h2
      exact ⟨c.ret, by rw [h2.2]; exact h1, h3, h2.1⟩
    · simp only [Ctrl.done.injEq] at h2
      omega
  | at_clock =>
    obtain ⟨rc, t, e1, _, h2⟩ := Ctrl.step_at_clock_inv op a ts c _ h
    simp only [Ctrl.after_clock] at h2
    split_ifs at h2 <;> simp only [Ctrl.done.injEq] at h2 <;> omega
  | at_poll d =>
    obtain ⟨fds, rc, e1, _, _, _, h2⟩ := Ctrl.step_at_poll_inv op a ts d c _ h
    simp only [Ctrl.after_poll] at h2
    split_ifs at h2 <;> simp only [Ctrl.done.injEq] at h2 <;> omega
  | done r0 e0 => simp [Ctrl.step] at h

/-- C14: in every bounded execution of either timed operation with the
deadline `ts`:
(1) wherever the log shows a `poll` that returned `> 0`, that call did not
make the operation return, and with one more loop body the very next call is a
new probe;
(2) wherever the log shows a probe that reported would-block, with one more
loop body the very next call is a read of the monotonic clock;
(3) wherever the log shows a successful clock read with the sample `t` and a
remaining time that is not 0, with one more loop body the very next call is a
`poll` whose timeout is the remaining time computed from `t`;
(4) if the operation returned a value `≥ 0`, the last call logged is a probe
that returned `≥ 0`, `errno` is what that probe left, and the value returned is
the probe's, converted to the return type of the operation (unchanged for
receive, and for send whenever it fits `int`). -/
theorem readiness_is_advisory {σ : Type} (S : Sys σ) (op : Op) (fuel : Nat) (a : Args)
    (ts : timespec) (w : σ) (errno : Int) :
    (∀ (pre post : List Call) (fds : pollfd) (d rc e : Int),
      (timed_op (traced S) op fuel a (some ts) (w, []) errno).log =
        pre ++ Call.poll fds d rc e :: post → 0 < rc →
      (post = [] → ∃ e1 w1, timed_op (traced S) op fuel a (some ts) (w, []) errno
        = Run.out_of_fuel e1 w1) ∧
      ∃ r e1 rest, (timed_op (traced S) op (fuel + 1) a (some ts) (w, []) errno).log =
        pre ++ Call.poll fds d rc e :: probe_call op a r e1 :: rest) ∧
    (∀ (pre post : List Call) (r e1 : Int),
      (timed_op (traced S) op fuel a (some ts) (w, []) errno).log =
        pre ++ probe_call op a r e1 :: post →
      r < 0 → (e1 = ETIMEDOUT ∨ e1 = EAGAIN) →
      ∃ rc t e2 rest, (timed_op (traced S) op (fuel + 1) a (some ts) (w, []) errno).log =
        pre ++ probe_call op a r e1 :: Call.clock_gettime CLOCK_MONOTONIC rc t e2 :: rest) ∧
    (∀ (pre post : List Call) (clk : Int) (t : timespec) (e2 : Int),
      (timed_op (traced S) op fuel a (some ts) (w, []) errno).log =
        pre ++ Call.clock_gettime clk 0 t e2 :: post →
      calculate_delta_time_ms ts t ≠ 0 →
      ∃ fds rc e3 rest, (timed_op (traced S) op (fuel + 1) a (some ts) (w, []) errno).log =
        pre ++ Call.clock_gettime clk 0 t e2 ::
          Call.poll fds (calculate_delta_time_ms ts t) rc e3 :: rest ∧
        fds.events = op.events) ∧
    (∀ (ret e1 : Int) (w1 : σ × List Call),
      timed_op (traced S) op fuel a (some ts) (w, []) errno = Run.returned ret e1 w1 →
      0 ≤ ret →
      ∃ pre r, w1.2 = pre ++ [probe_call op a r e1] ∧ 0 ≤ r ∧ ret = op.narrow r ∧
        (op = Op.receive ∨ r ≤ INT_MAX → ret = r)) := by
  refine ⟨?_, ?_, ?_, ?_⟩
  · intro pre post fds d rc e hlog hrc
    obtain ⟨ts1, hts, hv⟩ := timed_op_valid_of_log S op fuel a (some ts) w errno _ pre post hlog
    cases hts
    obtain ⟨s, s1, hstep, hrun⟩ := timed_op_state_after S op fuel a ts w errno hv pre post _ hlog
    obtain ⟨_, _, _, hs1⟩ := Ctrl.step_poll_inv op a ts s s1 fds d rc e hstep
    have hs2 : s1 = .at_probe := by
      rw [hs1]
      simp only [Ctrl.after_poll]
      rw [if_neg (by omega), if_neg (by omega), if_neg (by omega)]
    subst hs2
    have hlog1 : (timed_op (traced S) op fuel a (some ts) (w, []) errno).log =
        (pre ++ [Call.poll fds d rc e]) ++ post := by rw [hlog]; simp
    obtain ⟨hnr, c, rest, s2, hnext, hst⟩ := timed_op_next_call S op fuel a ts w errno hv
      _ post _ hlog1 hrun rfl
    obtain ⟨hc, _⟩ := Ctrl.step_at_probe_inv op a ts c s2 hst
    exact ⟨hnr, c.ret, c.errno_after, rest, by rw [hnext, ← hc]; simp⟩
  · intro pre post r e1 hlog hr he
    obtain ⟨ts1, hts, hv⟩ := timed_op_valid_of_log S op fuel a (some ts) w errno _ pre post hlog
    cases hts
    obtain ⟨s, s1, hstep, hrun⟩ := timed_op_state_after S op fuel a ts w errno hv pre post _ hlog
    obtain ⟨_, hs1⟩ := Ctrl.step_probe_call_inv op a ts s s1 r e1 hstep
    have hs2 : s1 = .at_clock := by
      rw [hs1]
      simp only [Ctrl.after_probe]
      rw [if_neg (by omega), if_neg (by
        intro h
        rcases he with he | he
        · exact h.1 he
        · exact h.2 he)]
    subst hs2
    have hlog1 : (timed_op (traced S) op fuel a (some ts) (w, []) errno).log =
        (pre ++ [probe_call op a r e1]) ++ post := by rw [hlog]; simp
    obtain ⟨_, c, rest, s2, hnext, hst⟩ := timed_op_next_call S op fuel a ts w errno hv
      _ post _ hlog1 hrun rfl
    obtain ⟨rc, t, e2, hc, _⟩ := Ctrl.step_at_clock_inv op a ts c s2 hst
    subst hc
    exact ⟨rc, t, e2, rest, by rw [hnext]; simp⟩
  · intro pre post clk t e2 hlog hd
    obtain ⟨ts1, hts, hv⟩ := timed_op_valid_of_log S op fuel a (some ts) w errno _ pre post hlog
    cases hts
    obtain ⟨s, s1, hstep, hrun⟩ := timed_op_state_after S op fuel a ts w errno hv pre post _ hlog
    obtain ⟨_, hs1⟩ := Ctrl.step_clock_inv op a ts s s1 clk 0 t e2 hstep
    have hs2 : s1 = .at_poll (calculate_delta_time_ms ts t) := by
      rw [hs1]
      simp only [Ctrl.after_clock]
      rw [if_neg (by simp), if_neg (fun h => hd h.symm)]
    subst hs2
    have hlog1 : (timed_op (traced S) op fuel a (some ts) (w, []) errno).log =
        (pre ++ [Call.clock_gettime clk 0 t e2]) ++ post := by rw [hlog]; simp
    obtain ⟨_, c, rest, s2, hnext, hst⟩ := timed_op_next_call S op fuel a ts w errno hv
      _ post _ hlog1 hrun rfl
    obtain ⟨fds, rc, e3, hc, _, hev, _⟩ := Ctrl.step_at_poll_inv op a ts _ c s2 hst
    subst hc
    exact ⟨fds, rc, e3, rest, by rw [hnext]; simp, hev⟩
  · intro ret e1 w1 hrun hret
    by_cases hv : is_timetout_valid (some ts) = true
    · have hconf := timed_op_conforms S op fuel a ts w errno hv
      rw [hrun] at hconf
      simp only [] at hconf
      obtain ⟨pre, c, s, h1, _, h3⟩ := Ctrl.run_done_last op a ts _ _ ret e1 hconf rfl
      obtain ⟨r0, hc, hr0, hn⟩ := Ctrl.step_done_nonneg op a ts s c ret e1 h3 hret
      subst hc
      refine ⟨pre, r0, h1, hr0, hn, ?_⟩
      intro hfit
      rw [hn]
      rcases hfit with hop | hfit
      · subst hop; rfl
      · cases op
        · rfl
        · simp only [Op.narrow]
          unfold INT_MAX at hfit
          exact wrap32_of_range r0 (by omega) hfit
    · have hv1 : is_timetout_valid (some ts) = false := by simpa using hv
      rw [timed_op_of_invalid _ _ _ _ _ _ _ hv1] at hrun
      simp only [Run.returned.injEq] at hrun
      omega

/-- A receive whose `poll` reports the handle ready and whose second probe
succeeds with 5 bytes, through `readiness_is_advisory`: the call after the
`poll` is a probe, and the 5 that is returned is that probe's. -/
theorem readiness_is_advisory_witness :
    (∃ r e1 rest,
      (timed_op (traced script_sys) .receive (2 + 1) ⟨3, [], 64, false, 0⟩ (some ⟨2, 0⟩)
        (⟨[(-1, EAGAIN), (5, 0)], [(0, ⟨1, 0⟩, 0)], [(1, 0)]⟩, []) 0).log =
        [Call.mq_timedreceive 3 64 zero_timeout (-1) EAGAIN,
          Call.clock_gettime CLOCK_MONOTONIC 0 ⟨1, 0⟩ 0] ++
          Call.poll ⟨3, POLLIN, 0⟩ 1000 1 0 ::
            probe_call .receive ⟨3, [], 64, false, 0⟩ r e1 :: rest) ∧
    (∃ pre r, ([Call.mq_timedreceive 3 64 zero_timeout (-1) EAGAIN,
          Call.clock_gettime CLOCK_MONOTONIC 0 ⟨1, 0⟩ 0, Call.poll ⟨3, POLLIN, 0⟩ 1000 1 0,
          Call.mq_timedreceive 3 64 zero_timeout 5 0] : List Call) =
        pre ++ [probe_call .receive ⟨3, [], 64, false, 0⟩ r 0] ∧ 0 ≤ r ∧
        (5 : Int) = Op.receive.narrow r ∧ (Op.receive = Op.receive ∨ r ≤ INT_MAX → 5 = r)) :=
  ⟨((readiness_is_advisory script_sys .receive 2 ⟨3, [], 64, false, 0⟩ ⟨2, 0⟩
      ⟨[(-1, EAGAIN), (5, 0)], [(0, ⟨1, 0⟩, 0)], [(1, 0)]⟩ 0).1
      [Call.mq_timedreceive 3 64 zero_timeout (-1) EAGAIN,
        Call.clock_gettime CLOCK_MONOTONIC 0 ⟨1, 0⟩ 0]
      [Call.mq_timedreceive 3 64 zero_timeout 5 0]
      ⟨3, POLLIN, 0⟩ 1000 1 0 (by decide) (by decide)).2,
   (readiness_is_advisory script_sys .receive 3 ⟨3, [], 64, false, 0⟩ ⟨2, 0⟩
      ⟨[(-1, EAGAIN), (5, 0)], [(0, ⟨1, 0⟩, 0)], [(1, 0)]⟩ 0).2.2.2 5 0
      (⟨[], [], []⟩, [Call.mq_timedreceive 3 64 zero_timeout (-1) EAGAIN,
          Call.clock_gettime CLOCK_MONOTONIC 0 ⟨1, 0⟩ 0, Call.poll ⟨3, POLLIN, 0⟩ 1000 1 0,
          Call.mq_timedreceive 3 64 zero_timeout 5 0])
      (by decide) (by decide)⟩

/-- C18: for every well-formed deadline, expired or not:
(1) if the first probe succeeds, the timed operation returns at once what the
probe returned (converted to the return type of the operation: unchanged for
receive, and 0 stays 0 for send), with `errno` as the probe left it, and the
probe is the only primitive call: no clock read, no `poll`;
(2) in every bounded execution the first call logged is a probe, and any
further call (so any clock read, any check of the deadline, any `poll`) comes
after that probe reported would-block. -/
theorem probe_precedes_deadline_check {σ : Type} (S : Sys σ) (op : Op) (fuel : Nat)
    (a : Args) (ts : timespec) (w : σ) (errno : Int)
    (hv : is_timetout_valid (some ts) = true) :
    (∀ log : List Call, 0 ≤ (probe S op a w 0).ret →
      timed_op (traced S) op (fuel + 1) a (some ts) (w, log) errno =
        Run.returned (op.narrow (probe S op a w 0).ret) (probe S op a w 0).errno
          ((probe S op a w 0).world,
            log ++ [probe_call op a (probe S op a w 0).ret (probe S op a w 0).errno])) ∧
    ((∀ r : Int, Op.receive.narrow r = r) ∧ Op.send.narrow 0 = 0) ∧
    (∀ (c : Call) (rest : List Call),
      (timed_op (traced S) op fuel a (some ts) (w, []) errno).log = c :: rest →
      ∃ r e1, c = probe_call op a r e1 ∧
        (rest ≠ [] → r < 0 ∧ (e1 = ETIMEDOUT ∨ e1 = EAGAIN))) := by
  refine ⟨?_, ⟨fun r => rfl, by decide⟩, ?_⟩
  · intro log hr
    rw [timed_op_of_valid _ _ _ _ _ _ _ hv, timed_loop_eq_driver_loop]
    simp only [driver_loop, probe_traced]
    rw [if_pos hr]
  · intro c rest hlog
    obtain ⟨st, hacc⟩ := timed_op_log_accepted S op fuel a ts w errno hv
    rw [hlog] at hacc
    simp only [Ctrl.run] at hacc
    cases h1 : Ctrl.step op a ts .at_probe c with
    | none => rw [h1] at hacc; simp at hacc
    | some s1 =>
      rw [h1] at hacc
      simp only [] at hacc
      obtain ⟨hc, hs1⟩ := Ctrl.step_at_probe_inv op a ts c s1 h1
      refine ⟨c.ret, c.errno_after, hc, ?_⟩
      intro hrest
      cases rest with
      | nil => exact absurd rfl hrest
      | cons c2 rest2 =>
        simp only [Ctrl.run] at hacc
        cases h2 : Ctrl.step op a ts s1 c2 with
        | none => rw [h2] at hacc; simp at hacc
        | some s2 =>
          rw [hs1] at h2
          simp only [Ctrl.after_probe] at h2
          split_ifs at h2 with h3 h4
          · simp [Ctrl.step] at h2
          · simp [Ctrl.step] at h2
          · refine ⟨by omega, ?_⟩
            by_cases h5 : c.errno_after = ETIMEDOUT
            · exact Or.inl h5
            · exact Or.inr (by_contra fun h6 => h4 ⟨h5, h6⟩)

/-- A receive with the deadline `{0, 0}`, long expired (the clock is at 100 s),
on a queue that holds the message `"old"`, through
`probe_precedes_deadline_check`: the call returns 3 after the one probe. -/
theorem probe_precedes_deadline_check_witness :
    is_timetout_valid (some ⟨0, 0⟩) = true ∧
    calculate_delta_time_ms ⟨0, 0⟩ pending_world.now = 0 ∧
    timed_op (traced mq_sys) .receive (0 + 1) ⟨3, [], 64, false, 0⟩ (some ⟨0, 0⟩)
      (pending_world, []) 5 =
      Run.returned 3 0
        (({ pending_world with
            msgs := [], buf := "old".toList ++ List.replicate 61 (Char.ofNat 0) } : mq_world),
          [Call.mq_timedreceive 3 64 zero_timeout 3 0]) :=
  ⟨by decide, by decide,
    ((probe_precedes_deadline_check mq_sys .receive 0 ⟨3, [], 64, false, 0⟩ ⟨0, 0⟩
      pending_world 5 (by decide)).1 [] (by decide)).trans (by decide)⟩

/-! ## Waiting on a queue that does not change -/

/-- One loop body in which the probe reports would-block, the clock read
succeeds and the wait, if there is time left, reports expiry: the loop returns
-1 with `errno = ETIMEDOUT`. -/
theorem driver_loop_times_out {σ : Type} (S : Sys σ) (prb : σ → Int → SysRet σ)
    (narrow : Int → Int) (events mqdes : Int) (ts : timespec) (fuel : Nat) (w : σ) (e : Int)
    (hr : (prb w 0).ret < 0)
    (he : (prb w 0).errno = ETIMEDOUT ∨ (prb w 0).errno = EAGAIN)
    (hc : (S.clock_gettime CLOCK_MONOTONIC (prb w 0).world (prb w 0).errno).ret = 0)
    (hp : calculate_delta_time_ms ts
        (S.clock_gettime CLOCK_MONOTONIC (prb w 0).world (prb w 0).errno).time ≠ 0 →
      (S.poll ⟨wrap32 mqdes, events, 0⟩
        (calculate_delta_time_ms ts
          (S.clock_gettime CLOCK_MONOTONIC (prb w 0).world (prb w 0).errno).time)
        (S.clock_gettime CLOCK_MONOTONIC (prb w 0).world (prb w 0).errno).world
        (S.clock_gettime CLOCK_MONOTONIC (prb w 0).world (prb w 0).errno).errno).ret = 0) :
    driver_loop S prb narrow events mqdes ts (fuel + 2) w e =
      Run.returned (-1) ETIMEDOUT
        (if calculate_delta_time_ms ts
            (S.clock_gettime CLOCK_MONOTONIC (prb w 0).world (prb w 0).errno).time = 0
         then (S.clock_gettime CLOCK_MONOTONIC (prb w 0).world (prb w 0).errno).world
         else (S.poll ⟨wrap32 mqdes, events, 0⟩
            (calculate_delta_time_ms ts
              (S.clock_gettime CLOCK_MONOTONIC (prb w 0).world (prb w 0).errno).time)
            (S.clock_gettime CLOCK_MONOTONIC (prb w 0).world (prb w 0).errno).world
            (S.clock_gettime CLOCK_MONOTONIC (prb w 0).world (prb w 0).errno).errno).world) := by
  rw [driver_loop]
  generalize prb w 0 = r at hr he hc hp ⊢
  generalize S.clock_gettime CLOCK_MONOTONIC r.world r.errno = c at hc hp ⊢
  have h2 : ¬ (r.errno ≠ ETIMEDOUT ∧ r.errno ≠ EAGAIN) := by
    intro h
    rcases he with he | he
    · exact h.1 he
    · exact h.2 he
  rw [if_neg (by omega), if_neg h2, if_neg (by simp [hc])]
  by_cases hd : 0 = calculate_delta_time_ms ts c.time
  · rw [if_pos hd, if_pos hd.symm]
  · rw [if_neg hd, if_neg (fun h => hd h.symm)]
    have hp1 := hp (fun h => hd h.symm)
    rw [poll_retry]
    generalize S.poll ⟨wrap32 mqdes, events, 0⟩ (calculate_delta_time_ms ts c.time)
      c.world c.errno = p at hp1 ⊢
    rw [if_neg (by omega)]
    simp only []
    rw [if_neg (by omega), if_pos hp1]

theorem mq_poll_not_ready (w : mq_world) (events d e : Int) (hd : 0 ≤ d)
    (hin : ¬ (events % 2 = 1 ∧ w.msgs ≠ []))
    (hout : ¬ ((events / 4) % 2 = 1 ∧ w.msgs.length < w.mq_maxmsg)) :
    mq_model_poll ⟨w.mqd, events, 0⟩ d w e = ⟨0, 0, e, { w with now := w.now.add_ms d }⟩ := by
  have hd1 : ¬ d < 0 := by omega
  simp only [mq_model_poll, ne_eq, not_true_eq_false, if_false, if_neg hin, if_neg hout,
    add_zero, if_neg hd1]

theorem mq_receive_empty_probe (w : mq_world) (len : Nat) (prio_ptr : Bool) (e : Int)
    (hempty : w.msgs = []) (hlen : w.mq_msgsize ≤ len) :
    mq_model_receive w.mqd len prio_ptr zero_timeout w e =
      ⟨-1, if w.nonblock then EAGAIN else ETIMEDOUT, w⟩ := by
  have h1 : ¬ (len < w.mq_msgsize) := by omega
  have hz : is_timetout_valid (some zero_timeout) = true := by decide
  simp only [mq_model_receive, ne_eq, not_true_eq_false, if_false, if_neg h1, hempty, hz,
    Bool.not_true, Bool.false_eq_true]
  split_ifs <;> rfl

theorem mq_send_full_probe (w : mq_world) (msg : List Char) (len prio : Nat) (e : Int)
    (hfull : w.mq_maxmsg ≤ w.msgs.length) (hlen : len ≤ w.mq_msgsize)
    (hprio : prio < MQ_PRIO_MAX) :
    mq_model_send w.mqd msg len prio zero_timeout w e =
      ⟨-1, if w.nonblock then EAGAIN else ETIMEDOUT, w⟩ := by
  have h1 : ¬ (len > w.mq_msgsize) := by omega
  have h2 : ¬ (prio ≥ MQ_PRIO_MAX) := by omega
  have h3 : ¬ (w.msgs.length < w.mq_maxmsg) := by omega
  have hz : is_timetout_valid (some zero_timeout) = true := by decide
  simp only [mq_model_send, ne_eq, not_true_eq_false, if_false, if_neg h1, if_neg h2,
    if_neg h3, hz, Bool.not_true, Bool.false_eq_true]
  split_ifs <;> rfl

/-- On the queue model, a timed receive from an empty queue with a valid
deadline returns -1 with `errno = ETIMEDOUT`: at once when the remaining time
is 0, and otherwise after the clock has advanced by the remaining time. -/
theorem mq_receive_empty_times_out (w : mq_world) (fuel len : Nat) (prio_ptr : Bool)
    (ts : timespec) (errno : Int)
    (hempty : w.msgs = []) (hlen : w.mq_msgsize ≤ len)
    (hfd : -2147483648 ≤ w.mqd ∧ w.mqd ≤ 2147483647)
    (hv : is_timetout_valid (some ts) = true) :
    mq_timedreceive_monotonic mq_sys (fuel + 2) w.mqd len prio_ptr (some ts) w errno =
      Run.returned (-1) ETIMEDOUT
        (if calculate_delta_time_ms ts w.now = 0 then w
         else { w with now := w.now.add_ms (calculate_delta_time_ms ts w.now) }) := by
  have hb := delta_ms_bounds ts w.now
  have hw : wrap32 w.mqd = w.mqd := wrap32_of_range _ hfd.1 hfd.2
  have hprobe : ∀ e, probe mq_sys .receive ⟨w.mqd, [], len, prio_ptr, 0⟩ w e =
      ⟨-1, if w.nonblock then EAGAIN else ETIMEDOUT, w⟩ :=
    fun e => mq_receive_empty_probe w len prio_ptr e hempty hlen
  have hin : ¬ (POLLIN % 2 = 1 ∧ w.msgs ≠ []) := by simp [hempty]
  have hout : ¬ ((POLLIN / 4) % 2 = 1 ∧ w.msgs.length < w.mq_maxmsg) :=
    fun h => absurd h.1 (by decide)
  have hpoll : ∀ e, mq_sys.poll ⟨wrap32 w.mqd, POLLIN, 0⟩ (calculate_delta_time_ms ts w.now) w e
      = ⟨0, 0, e, { w with now := w.now.add_ms (calculate_delta_time_ms ts w.now) }⟩ := by
    intro e
    rw [hw]
    exact mq_poll_not_ready w POLLIN _ e hb.1 hin hout
  have h_r : (probe mq_sys .receive ⟨w.mqd, [], len, prio_ptr, 0⟩ w 0).ret < 0 := by
    rw [hprobe]; show (-1 : Int) < 0; decide
  have h_e : (probe mq_sys .receive ⟨w.mqd, [], len, prio_ptr, 0⟩ w 0).errno = ETIMEDOUT ∨
      (probe mq_sys .receive ⟨w.mqd, [], len, prio_ptr, 0⟩ w 0).errno = EAGAIN := by
    rw [hprobe]
    by_cases hnb : w.nonblock = true <;> simp [hnb]
  have key := driver_loop_times_out mq_sys (probe mq_sys .receive ⟨w.mqd, [], len, prio_ptr, 0⟩)
    Op.receive.narrow Op.receive.events w.mqd ts fuel w errno h_r h_e rfl
    (by
      intro _
      rw [hprobe]
      exact congrArg PollRet.ret (hpoll _))
  have hop : mq_timedreceive_monotonic mq_sys (fuel + 2) w.mqd len prio_ptr (some ts) w errno
      = timed_op mq_sys .receive (fuel + 2) ⟨w.mqd, [], len, prio_ptr, 0⟩ (some ts) w errno := rfl
  rw [hop, timed_op_of_valid _ _ _ _ _ _ _ hv, timed_loop_eq_driver_loop, key, hprobe]
  show Run.returned (-1) ETIMEDOUT (if calculate_delta_time_ms ts w.now = 0 then w
    else (mq_sys.poll ⟨wrap32 w.mqd, POLLIN, 0⟩ (calculate_delta_time_ms ts w.now) w _).world)
    = _
  rw [hpoll]

/-- On the queue model, a timed send to a full queue with a valid deadline
returns -1 with `errno = ETIMEDOUT`: at once when the remaining time is 0, and
otherwise after the clock has advanced by the remaining time. -/
theorem mq_send_full_times_out (w : mq_world) (fuel : Nat) (msg : List Char)
    (len prio : Nat) (ts : timespec) (errno : Int)
    (hfull : w.mq_maxmsg ≤ w.msgs.length) (hlen : len ≤ w.mq_msgsize)
    (hprio : prio < MQ_PRIO_MAX)
    (hfd : -2147483648 ≤ w.mqd ∧ w.mqd ≤ 2147483647)
    (hv : is_timetout_valid (some ts) = true) :
    mq_timedsend_monotonic mq_sys (fuel + 2) w.mqd msg len prio (some ts) w errno =
      Run.returned (-1) ETIMEDOUT
        (if calculate_delta_time_ms ts w.now = 0 then w
         else { w with now := w.now.add_ms (calculate_delta_time_ms ts w.now) }) := by
  have hb := delta_ms_bounds ts w.now
  have hw : wrap32 w.mqd = w.mqd := wrap32_of_range _ hfd.1 hfd.2
  have hprobe : ∀ e, probe mq_sys .send ⟨w.mqd, msg, len, false, prio⟩ w e =
      ⟨-1, if w.nonblock then EAGAIN else ETIMEDOUT, w⟩ :=
    fun e => mq_send_full_probe w msg len prio e hfull hlen hprio
  have hin : ¬ (POLLOUT % 2 = 1 ∧ w.msgs ≠ []) := fun h => absurd h.1 (by decide)
  have hout : ¬ ((POLLOUT / 4) % 2 = 1 ∧ w.msgs.length < w.mq_maxmsg) :=
    fun h => absurd h.2 (by omega)
  have hpoll : ∀ e, mq_sys.poll ⟨wrap32 w.mqd, POLLOUT, 0⟩ (calculate_delta_time_ms ts w.now) w e
      = ⟨0, 0, e, { w with now := w.now.add_ms (calculate_delta_time_ms ts w.now) }⟩ := by
    intro e
    rw [hw]
    exact mq_poll_not_ready w POLLOUT _ e hb.1 hin hout
  have h_r : (probe mq_sys .send ⟨w.mqd, msg, len, false, prio⟩ w 0).ret < 0 := by
    rw [hprobe]; show (-1 : Int) < 0; decide
  have h_e : (probe mq_sys .send ⟨w.mqd, msg, len, false, prio⟩ w 0).errno = ETIMEDOUT ∨
      (probe mq_sys .send ⟨w.mqd, msg, len, false, prio⟩ w 0).errno = EAGAIN := by
    rw [hprobe]
    by_cases hnb : w.nonblock = true <;> simp [hnb]
  have key := driver_loop_times_out mq_sys (probe mq_sys .send ⟨w.mqd, msg, len, false, prio⟩)
    Op.send.narrow Op.send.events w.mqd ts fuel w errno h_r h_e rfl
    (by
      intro _
      rw [hprobe]
      exact congrArg PollRet.ret (hpoll _))
  have hop : mq_timedsend_monotonic mq_sys (fuel + 2) w.mqd msg len prio (some ts) w errno
      = timed_op mq_sys .send (fuel + 2) ⟨w.mqd, msg, len, false, prio⟩ (some ts) w errno := rfl
  rw [hop, timed_op_of_valid _ _ _ _ _ _ _ hv, timed_loop_eq_driver_loop, key, hprobe]
  show Run.returned (-1) ETIMEDOUT (if calculate_delta_time_ms ts w.now = 0 then w
    else (mq_sys.poll ⟨wrap32 w.mqd, POLLOUT, 0⟩ (calculate_delta_time_ms ts w.now) w _).world)
    = _
  rw [hpoll]

/-- A probe that is not the last call of an accepted log reported would-block. -/
theorem timed_op_probe_before_call {σ : Type} (S : Sys σ) (op : Op) (fuel : Nat) (a : Args)
    (ts : timespec) (w : σ) (e : Int) (hv : is_timetout_valid (some ts) = true)
    (pre post : List Call) (c : Call) (r e1 : Int)
    (hlog : (timed_op (traced S) op fuel a (some ts) (w, []) e).log = pre ++ c :: post)
    (hmem : probe_call op a r e1 ∈ pre) :
    r < 0 ∧ (e1 = ETIMEDOUT ∨ e1 = EAGAIN) := by
  obtain ⟨p1, p2, hp⟩ := List.append_of_mem hmem
  obtain ⟨st, hacc⟩ := timed_op_log_accepted S op fuel a ts w e hv
  rw [hlog, hp, List.append_assoc, List.cons_append] at hacc
  obtain ⟨s, s1, _, h1, h2, _⟩ := Ctrl.run_split op a ts _ _ _ _ _ hacc
  obtain ⟨_, hs1⟩ := Ctrl.step_probe_call_inv op a ts s s1 r e1 h1
  rw [hs1] at h2
  simp only [Ctrl.after_probe] at h2
  split_ifs at h2 with h3 h4
  · have := (Ctrl.run_done op a ts _ _ _ _ h2).1
    simp at this
  · have := (Ctrl.run_done op a ts _ _ _ _ h2).1
    simp at this
  · refine ⟨by omega, ?_⟩
    by_cases h5 : e1 = ETIMEDOUT
    · exact Or.inl h5
    · exact Or.inr (by_contra fun h6 => h4 ⟨h5, h6⟩)

/-- C11: (1) in every bounded execution of either timed operation, wherever
the log shows a `poll` that returned 0 (expiry, nothing ready), that is the
last primitive call and the operation has returned -1 with `errno = ETIMEDOUT`,
not success and not another error; every probe before it had reported
would-block.
(2) On the queue model, where the queue is touched by nobody else: a timed
receive from an empty queue with any valid deadline returns -1 with
`errno = ETIMEDOUT`, leaving the queue as it was, and when the remaining time is
not 0 the clock has advanced by exactly that time.
(3) The same for a timed send to a full queue. -/
theorem unchanged_queue_times_out :
    (∀ {σ : Type} (S : Sys σ) (op : Op) (fuel : Nat) (a : Args) (ts : timespec) (w : σ)
        (errno : Int) (pre post : List Call) (fds : pollfd) (d e : Int),
      (timed_op (traced S) op fuel a (some ts) (w, []) errno).log =
        pre ++ Call.poll fds d 0 e :: post →
      post = [] ∧
      (∀ r e1, probe_call op a r e1 ∈ pre → r < 0 ∧ (e1 = ETIMEDOUT ∨ e1 = EAGAIN)) ∧
      ∃ w1, timed_op (traced S) op fuel a (some ts) (w, []) errno =
        Run.returned (-1) ETIMEDOUT (w1, pre ++ [Call.poll fds d 0 e])) ∧
    (∀ (w : mq_world) (fuel len : Nat) (prio_ptr : Bool) (ts : timespec) (errno : Int),
      w.msgs = [] → w.mq_msgsize ≤ len →
      -2147483648 ≤ w.mqd ∧ w.mqd ≤ 2147483647 →
      is_timetout_valid (some ts) = true →
      mq_timedreceive_monotonic mq_sys (fuel + 2) w.mqd len prio_ptr (some ts) w errno =
        Run.returned (-1) ETIMEDOUT
          (if calculate_delta_time_ms ts w.now = 0 then w
           else { w with now := w.now.add_ms (calculate_delta_time_ms ts w.now) })) ∧
    (∀ (w : mq_world) (fuel : Nat) (msg : List Char) (len prio : Nat) (ts : timespec)
        (errno : Int),
      w.mq_maxmsg ≤ w.msgs.length → len ≤ w.mq_msgsize → prio < MQ_PRIO_MAX →
      -2147483648 ≤ w.mqd ∧ w.mqd ≤ 2147483647 →
      is_timetout_valid (some ts) = true →
      mq_timedsend_monotonic mq_sys (fuel + 2) w.mqd msg len prio (some ts) w errno =
        Run.returned (-1) ETIMEDOUT
          (if calculate_delta_time_ms ts w.now = 0 then w
           else { w with now := w.now.add_ms (calculate_delta_time_ms ts w.now) })) := by
  refine ⟨?_, ?_, ?_⟩
  · intro σ S op fuel a ts w errno pre post fds d e hlog
    obtain ⟨ts1, hts, hv⟩ := timed_op_valid_of_log S op fuel a (some ts) w errno _ pre post hlog
    cases hts
    have hstep : ∀ s s1, Ctrl.step op a ts s (Call.poll fds d 0 e) = some s1 →
        s1 = .done (-1) ETIMEDOUT := by
      intro s s1 h
      obtain ⟨_, _, _, h4⟩ := Ctrl.step_poll_inv op a ts s s1 fds d 0 e h
      rw [h4]
      simp [Ctrl.after_poll]
    obtain ⟨hpost, hret⟩ := timed_op_ends_at S op fuel a ts w errno pre post _ (-1) ETIMEDOUT
      hlog hstep
    exact ⟨hpost,
      fun r e1 hm => timed_op_probe_before_call S op fuel a ts w errno hv pre post _ r e1 hlog hm,
      hret⟩
  · intro w fuel len prio_ptr ts errno h1 h2 h3 h4
    exact mq_receive_empty_times_out w fuel len prio_ptr ts errno h1 h2 h3 h4
  · intro w fuel msg len prio ts errno h1 h2 h3 h4 h5
    exact mq_send_full_times_out w fuel msg len prio ts errno h1 h2 h3 h4 h5

/-- The test `receive_timeout`: receive on the empty fixture queue with the
deadline 1 s ahead of the clock (100 s), through `unchanged_queue_times_out`:
the call returns -1 / `ETIMEDOUT` with the clock at 101 s, after one probe, one
clock read and one `poll` with 1000 ms that returned 0. -/
theorem unchanged_queue_times_out_witness :
    mq_timedreceive_monotonic mq_sys (0 + 2) fixture_world.mqd 64 false (some ⟨101, 0⟩)
        fixture_world 0 =
      Run.returned (-1) ETIMEDOUT { fixture_world with now := ⟨101, 0⟩ } ∧
    ∃ w1, timed_op (traced mq_sys) .receive 2 ⟨3, [], 64, false, 0⟩ (some ⟨101, 0⟩)
        (fixture_world, []) 0 =
      Run.returned (-1) ETIMEDOUT
        (w1, [Call.mq_timedreceive 3 64 zero_timeout (-1) ETIMEDOUT,
            Call.clock_gettime CLOCK_MONOTONIC 0 ⟨100, 0⟩ ETIMEDOUT] ++
          [Call.poll ⟨3, POLLIN, 0⟩ 1000 0 ETIMEDOUT]) :=
  ⟨(unchanged_queue_times_out.2.1 fixture_world 0 64 false ⟨101, 0⟩ 0
      (by decide) (by decide) (by decide) (by decide)).trans (by decide),
   (unchanged_queue_times_out.1 mq_sys .receive 2 ⟨3, [], 64, false, 0⟩ ⟨101, 0⟩
      fixture_world 0
      [Call.mq_timedreceive 3 64 zero_timeout (-1) ETIMEDOUT,
        Call.clock_gettime CLOCK_MONOTONIC 0 ⟨100, 0⟩ ETIMEDOUT] []
      ⟨3, POLLIN, 0⟩ 1000 ETIMEDOUT (by decide)).2.2⟩

/-! ## The two drivers side by side -/

/-- With a `poll` that reports the same for both directions, the waits of the
two operations go the same way. -/
theorem poll_retry_similar {σ : Type} (S : Sys σ)
    (hpoll : ∀ (fd rev d : Int) (w : σ) (e : Int),
      S.poll ⟨fd, POLLIN, rev⟩ d w e = S.poll ⟨fd, POLLOUT, rev⟩ d w e)
    (fuel : Nat) (fd rev d : Int) (w : σ) (l1 l2 : List Call) (e : Int)
    (hl : l1.map Call.shape = l2.map Call.shape) :
    (∃ rc e1 w1 m1 m2,
      poll_retry (traced S) fuel ⟨fd, POLLIN, rev⟩ d (w, l1) e = .returned rc e1 (w1, m1) ∧
      poll_retry (traced S) fuel ⟨fd, POLLOUT, rev⟩ d (w, l2) e = .returned rc e1 (w1, m2) ∧
      m1.map Call.shape = m2.map Call.shape) ∨
    (∃ e1 w1 m1 m2,
      poll_retry (traced S) fuel ⟨fd, POLLIN, rev⟩ d (w, l1) e = .out_of_fuel e1 (w1, m1) ∧
      poll_retry (traced S) fuel ⟨fd, POLLOUT, rev⟩ d (w, l2) e = .out_of_fuel e1 (w1, m2) ∧
      m1.map Call.shape = m2.map Call.shape) := by
  induction fuel generalizing rev w l1 l2 e with
  | zero => exact Or.inr ⟨e, w, l1, l2, rfl, rfl, hl⟩
  | succ n ih =>
    simp only [poll_retry, traced_poll]
    rw [hpoll fd rev d w e]
    generalize S.poll ⟨fd, POLLOUT, rev⟩ d w e = p
    have hl1 : (l1 ++ [Call.poll ⟨fd, POLLIN, rev⟩ d p.ret p.errno]).map Call.shape =
        (l2 ++ [Call.poll ⟨fd, POLLOUT, rev⟩ d p.ret p.errno]).map Call.shape := by
      simp [hl, Call.shape]
    by_cases hc : p.ret < 0 ∧ p.errno = EINTR
    · rw [if_pos hc, if_pos hc]
      exact ih p.revents p.world _ _ p.errno hl1
    · rw [if_neg hc, if_neg hc]
      exact Or.inl ⟨p.ret, p.errno, p.world, _, _, rfl, rfl, hl1⟩

/-- With queue primitives that report the same and a `poll` that reports the
same for both directions, the loops of the two operations go the same way: they
stop together, with the same `errno` and the same world, after calls of the
same shape, and what send returns is what receive returns, narrowed to `int`. -/
theorem driver_loop_similar {σ : Type} (S : Sys σ) (a : Args) (ts : timespec)
    (hprobe : ∀ (w : σ) (e : Int), probe S .receive a w e = probe S .send a w e)
    (hpoll : ∀ (fd rev d : Int) (w : σ) (e : Int),
      S.poll ⟨fd, POLLIN, rev⟩ d w e = S.poll ⟨fd, POLLOUT, rev⟩ d w e)
    (fuel : Nat) (w : σ) (l1 l2 : List Call) (e : Int)
    (hl : l1.map Call.shape = l2.map Call.shape) :
    (∃ r e1 w1 m1 m2,
      driver_loop (traced S) (probe (traced S) .receive a) Op.receive.narrow
        Op.receive.events a.mqdes ts fuel (w, l1) e = .returned r e1 (w1, m1) ∧
      driver_loop (traced S) (probe (traced S) .send a) Op.send.narrow
        Op.send.events a.mqdes ts fuel (w, l2) e = .returned (wrap32 r) e1 (w1, m2) ∧
      m1.map Call.shape = m2.map Call.shape) ∨
    (∃ e1 w1 m1 m2,
      driver_loop (traced S) (probe (traced S) .receive a) Op.receive.narrow
        Op.receive.events a.mqdes ts fuel (w, l1) e = .out_of_fuel e1 (w1, m1) ∧
      driver_loop (traced S) (probe (traced S) .send a) Op.send.narrow
        Op.send.events a.mqdes ts fuel (w, l2) e = .out_of_fuel e1 (w1, m2) ∧
      m1.map Call.shape = m2.map Call.shape) := by
  induction fuel generalizing w l1 l2 e with
  | zero => exact Or.inr ⟨e, w, l1, l2, rfl, rfl, hl⟩
  | succ n ih =>
    simp only [driver_loop, probe_traced, traced_clock_gettime]
    rw [hprobe w 0]
    generalize probe S .send a w 0 = r
    have hl1 : (l1 ++ [probe_call .receive a r.ret r.errno]).map Call.shape =
        (l2 ++ [probe_call .send a r.ret r.errno]).map Call.shape := by
      simp [hl, Call.shape, probe_call]
    by_cases h1 : r.ret ≥ 0
    · rw [if_pos h1, if_pos h1]
      exact Or.inl ⟨r.ret, r.errno, r.world, _, _, rfl, rfl, hl1⟩
    · rw [if_neg h1, if_neg h1]
      by_cases h2 : r.errno ≠ ETIMEDOUT ∧ r.errno ≠ EAGAIN
      · rw [if_pos h2, if_pos h2]
        exact Or.inl ⟨-1, r.errno, r.world, _, _, rfl, rfl, hl1⟩
      · rw [if_neg h2, if_neg h2]
        generalize S.clock_gettime CLOCK_MONOTONIC r.world r.errno = c
        have hl2 : (l1 ++ [probe_call .receive a r.ret r.errno] ++
            [Call.clock_gettime CLOCK_MONOTONIC c.ret c.time c.errno]).map Call.shape =
            (l2 ++ [probe_call .send a r.ret r.errno] ++
            [Call.clock_gettime CLOCK_MONOTONIC c.ret c.time c.errno]).map Call.shape := by
          simp only [List.map_append] at hl1 ⊢
          rw [hl1]
        by_cases h3 : c.ret ≠ 0
        · rw [if_pos h3, if_pos h3]
          exact Or.inl ⟨-1, c.errno, c.world, _, _, rfl, rfl, hl2⟩
        · rw [if_neg h3, if_neg h3]
          by_cases h4 : 0 = calculate_delta_time_ms ts c.time
          · rw [if_pos h4, if_pos h4]
            exact Or.inl ⟨-1, ETIMEDOUT, c.world, _, _, rfl, rfl, hl2⟩
          · rw [if_neg h4, if_neg h4]
            rcases poll_retry_similar S hpoll n (wrap32 a.mqdes) 0
                (calculate_delta_time_ms ts c.time) c.world _ _ c.errno hl2 with
              ⟨rc, e3, w3, m1, m2, hp1, hp2, hm⟩ | ⟨e3, w3, m1, m2, hp1, hp2, hm⟩
            · simp only [Op.events]
              rw [hp1, hp2]
              simp only []
              by_cases h5 : rc < 0
              · rw [if_pos h5, if_pos h5]
                exact Or.inl ⟨-1, e3, w3, m1, m2, rfl, rfl, hm⟩
              · rw [if_neg h5, if_neg h5]
                by_cases h6 : rc = 0
                · rw [if_pos h6, if_pos h6]
                  exact Or.inl ⟨-1, ETIMEDOUT, w3, m1, m2, rfl, rfl, hm⟩
                · rw [if_neg h6, if_neg h6]
                  exact ih w3 m1 m2 e3 hm
            · simp only [Op.events]
              rw [hp1, hp2]
              exact Or.inr ⟨e3, w3, m1, m2, rfl, rfl, hm⟩

/-- C16: the two drivers are one loop instantiated twice.
(1) `mq_timedreceive_monotonic` is `timed_driver` with the probe
`mq_timedreceive`, the direction `POLLIN` and the return value passed on as it
is (`ssize_t`); `mq_timedsend_monotonic` is `timed_driver` with the probe
`mq_timedsend`, the direction `POLLOUT` and the return value narrowed to `int`.
Nothing else differs.
(2) Over a system whose two queue primitives report the same and whose `poll`
reports the same for both directions, bounded executions of the two operations
stop together, with the same `errno` and the same world, after logs of the same
shape (the same calls with the same results, up to the queue primitive and the
direction); send returns what receive returns, narrowed to `int`, so the same
value whenever that value fits `int` (as every `int` result of `mq_timedsend`
does, -1 included). -/
theorem drivers_are_one_loop :
    (∀ {σ : Type} (S : Sys σ) (fuel : Nat) (mqdes : Int) (msg_ptr : List Char)
        (msg_len : Nat) (prio_ptr : Bool) (msg_prio : Nat) (abs_timeout : Option timespec)
        (w : σ) (errno : Int),
      mq_timedreceive_monotonic S fuel mqdes msg_len prio_ptr abs_timeout w errno =
        timed_driver S (S.mq_timedreceive mqdes msg_len prio_ptr zero_timeout)
          (fun r => r) POLLIN fuel mqdes abs_timeout w errno ∧
      mq_timedsend_monotonic S fuel mqdes msg_ptr msg_len msg_prio abs_timeout w errno =
        timed_driver S (S.mq_timedsend mqdes msg_ptr msg_len msg_prio zero_timeout)
          wrap32 POLLOUT fuel mqdes abs_timeout w errno) ∧
    (∀ {σ : Type} (S : Sys σ) (a : Args) (fuel : Nat) (abs_timeout : Option timespec)
        (w : σ) (errno : Int),
      (∀ (w : σ) (e : Int),
        S.mq_timedreceive a.mqdes a.msg_len a.prio_ptr zero_timeout w e =
          S.mq_timedsend a.mqdes a.msg_ptr a.msg_len a.msg_prio zero_timeout w e) →
      (∀ (fd rev d : Int) (w : σ) (e : Int),
        S.poll ⟨fd, POLLIN, rev⟩ d w e = S.poll ⟨fd, POLLOUT, rev⟩ d w e) →
      Run.similar (timed_op (traced S) .receive fuel a abs_timeout (w, []) errno)
        (timed_op (traced S) .send fuel a abs_timeout (w, []) errno) ∧
      (timed_op (traced S) .send fuel a abs_timeout (w, []) errno).ret? =
        (timed_op (traced S) .receive fuel a abs_timeout (w, []) errno).ret?.map wrap32 ∧
      (∀ r : Int,
        (timed_op (traced S) .receive fuel a abs_timeout (w, []) errno).ret? = some r →
        -2147483648 ≤ r → r ≤ INT_MAX →
        (timed_op (traced S) .send fuel a abs_timeout (w, []) errno).ret? = some r)) := by
  refine ⟨?_, ?_⟩
  · intro σ S fuel mqdes msg_ptr msg_len prio_ptr msg_prio abs_timeout w errno
    constructor
    · have h := fun ts => timed_loop_eq_driver_loop S .receive
        ⟨mqdes, msg_ptr, msg_len, prio_ptr, msg_prio⟩ ts fuel w errno
      simp only [timed_loop, probe, Op.narrow, Op.events] at h
      simp only [mq_timedreceive_monotonic, timed_driver, h]
      rfl
    · have h := fun ts => timed_loop_eq_driver_loop S .send
        ⟨mqdes, msg_ptr, msg_len, prio_ptr, msg_prio⟩ ts fuel w errno
      simp only [timed_loop, probe, Op.narrow, Op.events] at h
      simp only [mq_timedsend_monotonic, timed_driver, h]
      rfl
  · intro σ S a fuel abs_timeout w errno hprobe hpoll
    by_cases hv : is_timetout_valid abs_timeout = true
    · cases abs_timeout with
      | none => simp [is_timetout_valid] at hv
      | some ts =>
        rw [timed_op_of_valid _ _ _ _ _ _ _ hv, timed_op_of_valid _ _ _ _ _ _ _ hv,
          timed_loop_eq_driver_loop, timed_loop_eq_driver_loop]
        rcases driver_loop_similar S a ts hprobe hpoll fuel w [] [] errno rfl with
          ⟨r, e1, w1, m1, m2, h1, h2, hm⟩ | ⟨e1, w1, m1, m2, h1, h2, hm⟩
        · rw [h1, h2]
          refine ⟨⟨rfl, rfl, rfl, hm⟩, rfl, ?_⟩
          intro r0 hr0 hlo hhi
          simp only [Run.ret?, Option.some.injEq] at hr0 ⊢
          subst hr0
          unfold INT_MAX at hhi
          exact wrap32_of_range r hlo hhi
        · rw [h1, h2]
          refine ⟨⟨rfl, rfl, rfl, hm⟩, rfl, ?_⟩
          intro r0 hr0
          simp [Run.ret?] at hr0
    · have hv1 : is_timetout_valid abs_timeout = false := by simpa using hv
      rw [timed_op_of_invalid _ _ _ _ _ _ _ hv1, timed_op_of_invalid _ _ _ _ _ _ _ hv1]
      refine ⟨⟨rfl, rfl, rfl, rfl⟩, rfl, ?_⟩
      intro r0 hr0 _ _
      exact hr0

/-- The scripted system reports the same to both operations; through
`drivers_are_one_loop`, a script with a would-block probe, a clock read, an
interrupted `poll`, a ready `poll` and a successful probe gives both operations
the same five calls and the same result 0. -/
theorem drivers_are_one_loop_witness :
    Run.similar
      (timed_op (traced script_sys) .receive 4 ⟨3, [], 64, false, 0⟩ (some ⟨2, 0⟩)
        (⟨[(-1, EAGAIN), (0, 0)], [(0, ⟨1, 0⟩, 0)], [(-1, EINTR), (1, 0)]⟩, []) 0)
      (timed_op (traced script_sys) .send 4 ⟨3, [], 64, false, 0⟩ (some ⟨2, 0⟩)
        (⟨[(-1, EAGAIN), (0, 0)], [(0, ⟨1, 0⟩, 0)], [(-1, EINTR), (1, 0)]⟩, []) 0) ∧
    (timed_op (traced script_sys) .send 4 ⟨3, [], 64, false, 0⟩ (some ⟨2, 0⟩)
        (⟨[(-1, EAGAIN), (0, 0)], [(0, ⟨1, 0⟩, 0)], [(-1, EINTR), (1, 0)]⟩, []) 0).ret?
      = some 0 ∧
    ((timed_op (traced script_sys) .receive 4 ⟨3, [], 64, false, 0⟩ (some ⟨2, 0⟩)
        (⟨[(-1, EAGAIN), (0, 0)], [(0, ⟨1, 0⟩, 0)], [(-1, EINTR), (1, 0)]⟩, []) 0).log.map
        Call.shape).length = 5 :=
  ⟨(drivers_are_one_loop.2 script_sys ⟨3, [], 64, false, 0⟩ 4 (some ⟨2, 0⟩)
      ⟨[(-1, EAGAIN), (0, 0)], [(0, ⟨1, 0⟩, 0)], [(-1, EINTR), (1, 0)]⟩ 0
      (fun _ _ => rfl) (fun _ _ _ _ _ => rfl)).1,
   (drivers_are_one_loop.2 script_sys ⟨3, [], 64, false, 0⟩ 4 (some ⟨2, 0⟩)
      ⟨[(-1, EAGAIN), (0, 0)], [(0, ⟨1, 0⟩, 0)], [(-1, EINTR), (1, 0)]⟩ 0
      (fun _ _ => rfl) (fun _ _ _ _ _ => rfl)).2.2 0 (by decide) (by decide) (by decide),
   by decide⟩

/-! ## The deadline and interrupted waits -/

/-- Counted from the clock sample it was computed from, a budget ends no later
than the deadline: for a well-formed deadline and a well-formed sample whose
fields fit their machine types, if the computed number of milliseconds is not
0 (so that a wait is issued), the sample advanced by it is not later than the
deadline. -/
theorem budget_from_sample_within_deadline (deadline t : timespec)
    (hd : is_timetout_valid (some deadline) = true)
    (ht : is_timetout_valid (some t) = true)
    (hrd : deadline.representable) (hrt : t.representable)
    (hne : calculate_delta_time_ms deadline t ≠ 0) :
    timespec.le (t.add_ms (calculate_delta_time_ms deadline t)) deadline := by
  have hb := delta_ms_bounds deadline t
  rw [is_timetout_valid_some] at hd ht
  unfold timespec.representable LLONG_MIN LLONG_MAX at hrd hrt
  by_cases hle : timespec.le t deadline
  · by_cases hfit : true_delta_ns deadline t / 1000000 ≤ LLONG_MAX
    · have h := calculate_delta_time_ms_no_overflow deadline t hd.2 ht.2 hle hfit
      have h1 : calculate_delta_time_ms deadline t ≤ true_delta_ns deadline t / 1000000 := by
        rw [h]; exact min_le_left _ _
      unfold true_delta_ns at h1
      unfold timespec.le timespec.add_ms at *
      simp only
      omega
    · unfold true_delta_ns LLONG_MAX at hfit
      unfold timespec.le timespec.add_ms at *
      simp only
      omega
  · -- the deadline has passed: the budget is 0
    have hz : calculate_delta_time_ms deadline t = 0 := by
      unfold timespec.le at hle
      unfold calculate_delta_time_ms
      simp only [NANOS_PER_SEC, MILLIS_PER_SEC, NANOS_PER_MILLI, INT_MAX]
      have e1 : wrap64 (deadline.tv_sec - t.tv_sec) = deadline.tv_sec - t.tv_sec :=
        wrap64_of_range _ (by omega) (by omega)
      have e2 : wrap64 (deadline.tv_nsec - t.tv_nsec) = deadline.tv_nsec - t.tv_nsec :=
        wrap64_of_range _ (by omega) (by omega)
      rw [e1, e2]
      by_cases hb1 : deadline.tv_nsec - t.tv_nsec < 0
      · have e3 : wrap64 (deadline.tv_sec - t.tv_sec - 1) = deadline.tv_sec - t.tv_sec - 1 :=
          wrap64_of_range _ (by omega) (by omega)
        simp only [if_pos hb1, e3]
        rw [if_pos (by omega)]
      · simp only [if_neg hb1]
        rw [if_pos (by omega)]
    exact absurd hz hne

/-- C12: the budget is not recomputed when a wait is interrupted, so a wait
can be issued with a budget that ends after the deadline. With the clock at
100 s and the deadline at 110 s, the probe reports would-block and the first
`poll` is issued at 100 s with 10000 ms; a signal interrupts it after 9 s; the
second `poll` is issued at 109 s, again with 10000 ms, which ends at 119 s, and
the call returns Timeout at 119 s, 9 s after the deadline. -/
theorem wait_reissued_past_deadline :
    timed_op tick_sys .receive 3 ⟨3, [], 64, false, 0⟩ (some ⟨110, 0⟩)
      ⟨⟨100, 0⟩, [], [(9000, -1, EINTR)], []⟩ 0 =
      Run.returned (-1) ETIMEDOUT
        ⟨⟨119, 0⟩, [], [], [(⟨100, 0⟩, 10000), (⟨109, 0⟩, 10000)]⟩ ∧
    timespec.add_ms ⟨109, 0⟩ 10000 = ⟨119, 0⟩ ∧
    ¬ timespec.le (timespec.add_ms ⟨109, 0⟩ 10000) ⟨110, 0⟩ ∧
    timespec.le (timespec.add_ms ⟨100, 0⟩ 10000) ⟨110, 0⟩ := by
  decide

end mq_monotonic
